import Mathlib

/-!
Verification of the cortex memory engine.

This file gives a shallow embedding of the memory engine's core components:
the chunk codec (serializeChunk / parseChunkFile), the chunk storage helpers
(id generation, filename-prefix index), the semantic-index string-ID facade
over integer slots, and the memory-store orchestrator operations
(storeChunk, updateChunk, query, markRelevant, markObsolete).

Modelling conventions:
- Timestamps are strings (ISO instants in the source); each mutating
  operation takes the current time as an explicit `now` parameter.
- The filesystem is abstracted to an association list from chunk id to the
  stored chunk; the source writes one file per id (`{id}-{slug}.md`) and
  distinct ids give distinct filenames, so the id-keyed map is faithful.
- Fallible appends to the audit log take an `auditOk` flag modelling whether
  the underlying file append succeeds; operations return both an
  `Except`-style result and the post-state, mirroring the fact that in the
  source the in-memory/on-disk mutations performed before a throw survive it.
- The YAML layer of the codec is modelled concretely for plain scalars
  (values that the yaml library emits unquoted); the well-formedness
  predicate `plainOk` delimits that domain.
- The embedder and the ANN backend are external to the repository; the
  facade operations are modelled over the facade maps, and the backend's
  `searchKnn` result is passed to `SemanticIndex.query` as an explicit
  argument constrained by the backend's contract in the theorems.
-/

/-! ## Association lists (model of JS `Map` with insertion order) -/

def alookup {α β : Type} [DecidableEq α] : List (α × β) → α → Option β
  | [], _ => none
  | (k, v) :: t, a => if k = a then some v else alookup t a

def aset {α β : Type} [DecidableEq α] : List (α × β) → α → β → List (α × β)
  | [], a, b => [(a, b)]
  | (k, v) :: t, a, b => if k = a then (a, b) :: t else (k, v) :: aset t a b

def aerase {α β : Type} [DecidableEq α] : List (α × β) → α → List (α × β)
  | [], _ => []
  | (k, v) :: t, a => if k = a then aerase t a else (k, v) :: aerase t a

/-! ## Characters and line primitives -/

/-- Model of JS `String.prototype.split('\n')`: split at every newline,
keeping empty segments. -/
def splitNL : List Char → List (List Char)
  | [] => [[]]
  | c :: rest =>
    if c = '\n' then [] :: splitNL rest
    else
      match splitNL rest with
      | [] => [[c]]
      | h :: t => (c :: h) :: t

/-- Model of JS `Array.prototype.join('\n')`. -/
def joinLines : List (List Char) → List Char
  | [] => []
  | [l] => l
  | l :: l' :: ls => l ++ '\n' :: joinLines (l' :: ls)

/-- ECMA-262 WhiteSpace ∪ LineTerminator, the set stripped by
`String.prototype.trim`: TAB, LF, VT, FF, CR, SP, NBSP, OGHAM SPACE MARK,
the U+2000–U+200A space separators, LINE SEPARATOR, PARAGRAPH SEPARATOR,
NARROW NO-BREAK SPACE, MEDIUM MATHEMATICAL SPACE, IDEOGRAPHIC SPACE and
ZWNBSP. -/
def isWS (c : Char) : Bool :=
  c.toNat = 0x09 || c.toNat = 0x0A || c.toNat = 0x0B || c.toNat = 0x0C ||
  c.toNat = 0x0D || c.toNat = 0x20 || c.toNat = 0xA0 || c.toNat = 0x1680 ||
  (0x2000 ≤ c.toNat && c.toNat ≤ 0x200A) || c.toNat = 0x2028 ||
  c.toNat = 0x2029 || c.toNat = 0x202F || c.toNat = 0x205F ||
  c.toNat = 0x3000 || c.toNat = 0xFEFF

/-- Model of JS `String.prototype.trim()`. -/
def trimChars (l : List Char) : List Char :=
  ((l.dropWhile isWS).reverse.dropWhile isWS).reverse

/-- Does the character list contain the two-character pattern `ab`? -/
def hasPair (a b : Char) : List Char → Bool
  | [] => false
  | c :: rest => (c == a && rest.head? == some b) || hasPair a b rest

/-! ## Chunk data model (src/memory.types.ts) -/

structure ChunkRelation where
  id : String
  reason : String
deriving DecidableEq, Repr

structure Chunk where
  id : String
  content : String
  summary : String
  type : String
  epistemic : String
  status : String
  surface_tags : List String
  related : List ChunkRelation
  created : String
  updated : String
  accessed : String
  retrieved_count : Nat
  relevant_count : Nat
  last_relevant_date : Option String
  expires : Option String
  context_notes : Option String
deriving DecidableEq, Repr

/-- `Partial<Chunk>`: every field optionally present.  A field whose value is
`none` is absent from the metadata object (explicitly-`undefined` fields are
not modelled).  For the nullable field `last_relevant_date`, `some none`
sets it to null. -/
structure PartialChunk where
  id : Option String := none
  content : Option String := none
  summary : Option String := none
  type : Option String := none
  epistemic : Option String := none
  status : Option String := none
  surface_tags : Option (List String) := none
  related : Option (List ChunkRelation) := none
  created : Option String := none
  updated : Option String := none
  accessed : Option String := none
  retrieved_count : Option Nat := none
  relevant_count : Option Nat := none
  last_relevant_date : Option (Option String) := none
  expires : Option (Option String) := none
  context_notes : Option (Option String) := none
deriving DecidableEq, Repr

/-- Error kinds thrown by the engine (each `throw new Error(...)` site). -/
inductive MemErr where
  | invalidFormat (filename : String)
  | chunkNotFound (id : String)
  | missingRequiredField (field : String)
  | capacityExceeded
  | idExhausted
  | auditAppendFailed
deriving DecidableEq, Repr

/-! ## Chunk codec (memory.storage.ts: serializeChunk / parseChunkFile)

The source delegates the header to the `yaml` library.  The model renders
the header concretely in the library's default block style for plain
scalars; `plainOk` below characterises the strings for which this concrete
rendering agrees with the library (unquoted plain scalars). -/

def kvL (k : String) (v : List Char) : List Char :=
  k.data ++ ':' :: ' ' :: v

def digitChar (n : Nat) : Char := Char.ofNat (48 + n)

/-- Decimal rendering of a natural, fuel-based for structural recursion
(`fuel` bounds the recursion depth; `n + 1` is always enough). -/
def natDigitsF : Nat → Nat → List Char
  | 0, _ => []
  | fuel + 1, n =>
    if n < 10 then [digitChar n]
    else natDigitsF fuel (n / 10) ++ [digitChar (n % 10)]

/-- Decimal rendering of a natural (the yaml library's number output). -/
def natDigits (n : Nat) : List Char := natDigitsF (n + 1) n

/-- Decimal parsing of a natural (the yaml library's number input). -/
def parseNatAux : List Char → Nat → Option Nat
  | [], acc => some acc
  | c :: rest, acc =>
    if 48 ≤ c.toNat ∧ c.toNat ≤ 57 then parseNatAux rest (acc * 10 + (c.toNat - 48))
    else none

def parseNatChars (l : List Char) : Option Nat :=
  if l = [] then none else parseNatAux l 0

def tagLine (t : String) : List Char := ' ' :: ' ' :: '-' :: ' ' :: t.data

def relIdLine (r : ChunkRelation) : List Char := "  - id: ".data ++ r.id.data

def relReasonLine (r : ChunkRelation) : List Char := "    reason: ".data ++ r.reason.data

/-- The surface_tags lines: a flow empty list on the key line when empty,
else a block sequence. -/
def tagsBlock (c : Chunk) : List (List Char) :=
  if c.surface_tags = [] then [kvL "surface_tags" "[]".data]
  else "surface_tags:".data :: c.surface_tags.map tagLine

/-- The related lines, emitted only when non-empty. -/
def relBlock (c : Chunk) : List (List Char) :=
  if c.related = [] then []
  else "related:".data :: c.related.flatMap (fun r => [relIdLine r, relReasonLine r])

/-- The expires line, emitted only when truthy. -/
def expBlock (c : Chunk) : List (List Char) :=
  match c.expires with
  | some e => if e = "" then [] else [kvL "expires" e.data]
  | none => []

/-- The context_notes line, emitted only when truthy. -/
def cnBlock (c : Chunk) : List (List Char) :=
  match c.context_notes with
  | some n => if n = "" then [] else [kvL "context_notes" n.data]
  | none => []

/-- The header lines emitted for a chunk, in the source's insertion order
(serializeChunk builds the meta object field by field, `related` only when
non-empty, `expires`/`context_notes` only when truthy). -/
def headerLines (c : Chunk) : List (List Char) :=
  [kvL "id" c.id.data, kvL "summary" c.summary.data, kvL "type" c.type.data,
   kvL "epistemic" c.epistemic.data, kvL "status" c.status.data]
  ++ tagsBlock c
  ++ [kvL "created" c.created.data, kvL "updated" c.updated.data,
      kvL "accessed" c.accessed.data,
      kvL "retrieved_count" (natDigits c.retrieved_count),
      kvL "relevant_count" (natDigits c.relevant_count),
      kvL "last_relevant_date" ((c.last_relevant_date.map String.data).getD "null".data)]
  ++ relBlock c
  ++ expBlock c
  ++ cnBlock c

/-- serializeChunk: the string template
`---\n{yaml header}---\n\n{content}` where the yaml header is one line per
field ending in a newline. -/
def serializeChunk (c : Chunk) : String :=
  String.mk (joinLines ("---".data :: headerLines c ++ ["---".data]) ++
    '\n' :: '\n' :: c.content.data)

/-- Split a header line at the first `": "` into key and value
(the yaml mapping-entry shape our serializer emits). -/
def splitKV : List Char → Option (List Char × List Char)
  | [] => none
  | c :: rest =>
    if c = ':' ∧ rest.head? = some ' ' then some ([], rest.tail)
    else (splitKV rest).map fun p => (c :: p.1, p.2)

/-- First value bound to `key` among the header lines. -/
def findValue (key : List Char) : List (List Char) → Option (List Char)
  | [] => none
  | l :: ls =>
    match splitKV l with
    | some p => if p.1 = key then some p.2 else findValue key ls
    | none => findValue key ls

/-- Lines following the first occurrence of the exact line `hdr`. -/
def afterLine (hdr : List Char) : List (List Char) → Option (List (List Char))
  | [] => none
  | l :: ls => if l = hdr then some ls else afterLine hdr ls

/-- Collect the leading `"  - item"` lines of a block sequence. -/
def takeItems : List (List Char) → List (List Char)
  | [] => []
  | l :: ls => if l.take 4 = "  - ".data then l.drop 4 :: takeItems ls else []

/-- Collect the leading `- id:` / `reason:` pairs of the related block. -/
def takeRelated : List (List Char) → List ChunkRelation
  | l1 :: l2 :: ls =>
    if l1.take 8 = "  - id: ".data ∧ l2.take 12 = "    reason: ".data then
      ⟨String.mk (l1.drop 8), String.mk (l2.drop 12)⟩ :: takeRelated ls
    else []
  | _ => []

def tagsOf (lines : List (List Char)) : List String :=
  match afterLine "surface_tags:".data lines with
  | some ls => (takeItems ls).map String.mk
  | none => []

def relatedOf (lines : List (List Char)) : List ChunkRelation :=
  match afterLine "related:".data lines with
  | some ls => takeRelated ls
  | none => []

/-- Index of the first line equal to `---`. -/
def idxOfDelim : List (List Char) → Option Nat
  | [] => none
  | l :: ls => if l = "---".data then some 0 else (idxOfDelim ls).map (· + 1)

/-- parseChunkFile: reject unless the first line is `---` and a closing
`---` line exists; parse the header between them; the body is the remaining
lines joined and trimmed.  Missing counters default to 0, missing
`last_relevant_date` to null, missing `related`/`surface_tags` to empty. -/
def parseChunkFile (text : String) (filename : String) : Except MemErr Chunk :=
  match splitNL text.data with
  | [] => .error (.invalidFormat filename)
  | l0 :: rest =>
    if l0 = "---".data then
      match idxOfDelim rest with
      | none => .error (.invalidFormat filename)
      | some i =>
        let header := rest.take i
        let body := trimChars (joinLines (rest.drop (i + 1)))
        let fv := fun (k : String) => (findValue k.data header).map String.mk
        .ok
          { id := (fv "id").getD ""
            content := String.mk body
            summary := (fv "summary").getD ""
            type := (fv "type").getD ""
            epistemic := (fv "epistemic").getD ""
            status := (fv "status").getD ""
            surface_tags := tagsOf header
            related := relatedOf header
            created := (fv "created").getD ""
            updated := (fv "updated").getD ""
            accessed := (fv "accessed").getD ""
            retrieved_count := ((findValue "retrieved_count".data header).bind parseNatChars).getD 0
            relevant_count := ((findValue "relevant_count".data header).bind parseNatChars).getD 0
            last_relevant_date :=
              match fv "last_relevant_date" with
              | some v => if v = "null" then none else some v
              | none => none
            expires := fv "expires"
            context_notes := fv "context_notes" }
    else .error (.invalidFormat filename)

/-- Plain scalar: a string the yaml library emits unquoted and reads back
verbatim.  Nonempty, begins with a letter or digit, contains no newline,
carriage return, or key separator `": "`, does not end in `:` or space, is
not a yaml keyword, and is not purely numeric. -/
def plainOk (s : String) : Bool :=
  match s.data with
  | [] => false
  | c :: _ =>
    (c.isAlpha || c.isDigit) &&
    !(s.data.contains '\n') && !(s.data.contains '\r') &&
    !(hasPair ':' ' ' s.data) &&
    !(hasPair ' ' '#' s.data) &&
    s.data.getLast? != some ':' && s.data.getLast? != some ' ' &&
    s != "null" && s != "true" && s != "false" && s != "~" &&
    !(s.data.all fun d => d.isDigit)

/-- Well-formed chunk: every header scalar is a plain scalar.  This is the
domain on which the model's concrete yaml rendering coincides with the
library's output. -/
def WellFormed (c : Chunk) : Prop :=
  plainOk c.id ∧ plainOk c.summary ∧ plainOk c.type ∧ plainOk c.epistemic ∧
  plainOk c.status ∧ (∀ t ∈ c.surface_tags, plainOk t) ∧
  (∀ r ∈ c.related, plainOk r.id ∧ plainOk r.reason) ∧
  plainOk c.created ∧ plainOk c.updated ∧ plainOk c.accessed ∧
  (∀ v, c.last_relevant_date = some v → plainOk v) ∧
  (∀ v, c.expires = some v → v = "" ∨ plainOk v) ∧
  (∀ v, c.context_notes = some v → v = "" ∨ plainOk v)

instance : DecidablePred WellFormed := fun c => by
  unfold WellFormed
  infer_instance

/-! ## Chunk storage helpers (memory.storage.ts) -/

/-- Lowercase hex digit for a value below 16. -/
def hexChar (n : Nat) : Char :=
  if n < 10 then Char.ofNat (48 + n) else Char.ofNat (87 + n)

/-- Hex encoding of 3 random bytes, as in
`crypto.randomBytes(3).toString('hex')`: six lowercase hex characters. -/
def toHex6 (n : Nat) : String :=
  String.mk [hexChar (n / 16 ^ 5 % 16), hexChar (n / 16 ^ 4 % 16),
    hexChar (n / 16 ^ 3 % 16), hexChar (n / 16 ^ 2 % 16),
    hexChar (n / 16 % 16), hexChar (n % 16)]

/-- `/^[a-f0-9]{6}$/` -/
def isHex6 (s : String) : Bool :=
  s.data.length = 6 &&
  s.data.all fun c => ('0' ≤ c && c ≤ '9') || ('a' ≤ c && c ≤ 'f')

/-- The id drawn on the i-th call to `generateId()`: the randomness is an
explicit stream of 3-byte values. -/
def idAt (draws : Nat → Nat) (i : Nat) : String := toHex6 (draws i % 16 ^ 6)

/-- Loop of `ChunkStorage.generateUniqueId`: while the current id exists
and fewer than 100 retries were made, redraw; after the loop, throw
IdExhausted if 100 retries were made (even if the final redraw was fresh).
`fuel` is the number of retries still allowed (`100 - attempts`); at fuel 0
the loop has exited with `attempts = 100` and the source throws
unconditionally. -/
def genLoop (ex : String → Bool) (draws : Nat → Nat) : Nat → Nat → Except MemErr String
  | _, 0 => .error .idExhausted
  | i, fuel + 1 =>
    if ex (idAt draws i) then genLoop ex draws (i + 1) fuel
    else .ok (idAt draws i)

def generateUniqueId (ex : String → Bool) (draws : Nat → Nat) :
    Except MemErr String :=
  genLoop ex draws 0 100

/-- `file.split('-')[0]`: the characters of a filename before the first
dash (the whole name if there is no dash). -/
def idOfFilename (file : String) : String :=
  String.mk ((file.data.splitOn '-').headD [])

/-- `file.endsWith('.md')`, at the character level. -/
def endsWithMd (file : String) : Bool :=
  ".md".data.isSuffixOf file.data

/-- `ChunkStorage.buildIndex`: files ending in `.md` whose prefix before the
first dash is non-empty of length 6 are entered into the id-to-filename
mapping; there is no hex check. -/
def buildIndex (files : List String) : List (String × String) :=
  files.foldl
    (fun m file =>
      if endsWithMd file then
        if idOfFilename file ≠ "" ∧ (idOfFilename file).data.length = 6 then
          aset m (idOfFilename file) file
        else m
      else m)
    []

/-- The guard of `MemoryStore.handleFileChange` / `handleFileDelete`:
the event is reconciled only when the extracted id is non-empty of
length 6 (again no hex check). -/
def watcherAccepts (filename : String) : Bool :=
  let id := idOfFilename filename
  !(id = "" || id.data.length ≠ 6)

/-! ## Semantic index facade (memory.embedding.ts)

The facade state over the integer-slot ANN backend.  `deletedIndices`
models the JS `Set` in insertion order (`values().next()` yields the
oldest inserted element); `idToIndex` / `indexToId` model the JS `Map`s. -/

structure SemState where
  idToIndex : List (String × Nat)
  indexToId : List (Nat × String)
  nextIndex : Nat
  deletedIndices : List Nat
  maxElements : Nat
deriving DecidableEq, Repr

namespace SemanticIndex

/-- `reset()`: fresh backend, cleared facade maps and counters. -/
def reset (s : SemState) : SemState :=
  { idToIndex := [], indexToId := [], nextIndex := 0, deletedIndices := [],
    maxElements := s.maxElements }

/-- `removeDocument(id)`: look up the slot, mark it deleted in the backend,
unmap it, and record it in the free set; false if unknown. -/
def removeDocument (id : String) (s : SemState) : Bool × SemState :=
  match alookup s.idToIndex id with
  | none => (false, s)
  | some n =>
    (true,
      { s with
        idToIndex := aerase s.idToIndex id
        indexToId := aerase s.indexToId n
        deletedIndices := s.deletedIndices ++ [n] })

/-- Slot allocation and facade update of `addDocument`, after the
already-present check: take the oldest free slot (`values().next()` on the
JS Set), else `nextIndex++`; throw CapacityExceeded when the allocated
slot reaches `maxElements` (the increment of `nextIndex` survives the
throw); otherwise `addPoint` and map the pair. -/
def allocSlot (id : String) (s1 : SemState) : Except MemErr Unit × SemState :=
  match s1.deletedIndices with
  | n :: rest =>
    let s2 := { s1 with deletedIndices := rest }
    if s2.maxElements ≤ n then (.error .capacityExceeded, s2)
    else (.ok (), { s2 with idToIndex := aset s2.idToIndex id n,
                            indexToId := aset s2.indexToId n id })
  | [] =>
    let n := s1.nextIndex
    let s2 := { s1 with nextIndex := s1.nextIndex + 1 }
    if s2.maxElements ≤ n then (.error .capacityExceeded, s2)
    else (.ok (), { s2 with idToIndex := aset s2.idToIndex id n,
                            indexToId := aset s2.indexToId n id })

/-- `addDocument(id, text)`: remove an existing mapping for `id` first;
then allocate a slot and update the facade. The embedding of `text` is
external and not modelled. -/
def addDocument (id : String) (_text : String) (s : SemState) :
    Except MemErr Unit × SemState :=
  allocSlot id (if (alookup s.idToIndex id).isSome then (removeDocument id s).2 else s)

/-- `updateDocument(id, text)`: remove then add. -/
def updateDocument (id : String) (text : String) (s : SemState) :
    Except MemErr Unit × SemState :=
  addDocument id text (removeDocument id s).2

/-- `query(text, k)` given the backend `searchKnn` response `res`
(slot/distance pairs): cap `k` at the document count, return empty at zero,
map slots back to ids and drop slots whose id is no longer mapped (or whose
mapped id is the empty string, which is falsy in the source's `if (id)`). -/
def query (s : SemState) (k : Nat) (res : List (Nat × ℚ)) : List (String × ℚ) :=
  if Nat.min k s.idToIndex.length = 0 then []
  else
    res.filterMap fun p =>
      match alookup s.indexToId p.1 with
      | some id => if id = "" then none else some (id, p.2)
      | none => none

/-- Reachable-state bound: every mapped or free slot is below
`maxElements` (slots are only ever allocated after the capacity check). -/
def InBounds (s : SemState) : Prop :=
  (∀ id n, alookup s.idToIndex id = some n → n < s.maxElements) ∧
  (∀ n ∈ s.deletedIndices, n < s.maxElements)

/-- The facade invariant of the claim: the two maps are mutually inverse
key-distinct finite maps, no deleted slot is mapped, and every mapped or
deleted slot is below `nextIndex`. -/
def Inv (s : SemState) : Prop :=
  ((s.idToIndex.map Prod.fst).Nodup ∧ (s.indexToId.map Prod.fst).Nodup ∧
    s.deletedIndices.Nodup) ∧
  (∀ id n, alookup s.idToIndex id = some n ↔ alookup s.indexToId n = some id) ∧
  (∀ n ∈ s.deletedIndices, alookup s.indexToId n = none) ∧
  (∀ id n, alookup s.idToIndex id = some n → n < s.nextIndex) ∧
  (∀ n ∈ s.deletedIndices, n < s.nextIndex)

end SemanticIndex

/-! ## Memory store orchestrator (memory.index.ts)

State: the id-keyed chunk storage and the audit-log lines.  The semantic
index is derived state rebuilt from storage; the orchestrator-level claims
below concern storage and audit, so the index component is not carried in
this state (its calls are assumed not to throw; see `SemState` for the
facade model).  Each operation returns its result together with the
post-state: a thrown error leaves behind whatever mutations preceded it,
as in the source. -/

structure MState where
  storage : List (String × Chunk)
  audit : List String
deriving DecidableEq, Repr

namespace MemoryStore

/-- One audit line `<ISO> <ACTION>[ <chunkId>][ <details>]`. -/
def mkLine (now action rest : String) : String :=
  now ++ " " ++ action ++ rest

/-- `AuditLog.log` via `fs.appendFile`, which may fail; `auditOk` says
whether the append succeeds.  On failure nothing is written and the error
propagates to the caller (there is no catch in the source). -/
def auditAppend (s : MState) (auditOk : Bool) (line : String) :
    Except MemErr Unit × MState :=
  if auditOk then (.ok (), { s with audit := s.audit ++ [line] })
  else (.error .auditAppendFailed, s)

/-- `{...existing, ...metadata}`: fields present in the metadata override. -/
def mergeChunk (c : Chunk) (m : PartialChunk) : Chunk :=
  { id := m.id.getD c.id
    content := m.content.getD c.content
    summary := m.summary.getD c.summary
    type := m.type.getD c.type
    epistemic := m.epistemic.getD c.epistemic
    status := m.status.getD c.status
    surface_tags := m.surface_tags.getD c.surface_tags
    related := m.related.getD c.related
    created := m.created.getD c.created
    updated := m.updated.getD c.updated
    accessed := m.accessed.getD c.accessed
    retrieved_count := m.retrieved_count.getD c.retrieved_count
    relevant_count := m.relevant_count.getD c.relevant_count
    last_relevant_date := m.last_relevant_date.getD c.last_relevant_date
    expires := m.expires.getD c.expires
    context_notes := m.context_notes.getD c.context_notes }

/-- `storeChunk(content, metadata)`: validate the required fields, generate
a fresh id, overlay `metadata` then `{id, content}` on the defaults
(`status=active`, `related=[]`, timestamps `now`, counters 0, null
last-relevant), write to storage, add to the index, append a STORE audit
line.  Returns the new id. -/
def storeChunk (s : MState) (content : String) (m : PartialChunk)
    (draws : Nat → Nat) (now : String) (auditOk : Bool) :
    Except MemErr String × MState :=
  if m.summary.isNone then (.error (.missingRequiredField "summary"), s)
  else if m.type.isNone then (.error (.missingRequiredField "type"), s)
  else if m.epistemic.isNone then (.error (.missingRequiredField "epistemic"), s)
  else if m.surface_tags.isNone then
    (.error (.missingRequiredField "surface_tags"), s)
  else
    match generateUniqueId (fun id => (alookup s.storage id).isSome) draws with
    | .error e => (.error e, s)
    | .ok id =>
      let chunk : Chunk :=
        { id := id
          content := content
          summary := m.summary.getD ""
          type := m.type.getD ""
          epistemic := m.epistemic.getD ""
          status := m.status.getD "active"
          surface_tags := m.surface_tags.getD []
          related := m.related.getD []
          created := m.created.getD now
          updated := m.updated.getD now
          accessed := m.accessed.getD now
          retrieved_count := m.retrieved_count.getD 0
          relevant_count := m.relevant_count.getD 0
          last_relevant_date := m.last_relevant_date.getD none
          expires := m.expires.getD none
          context_notes := m.context_notes.getD none }
      let s1 := { s with storage := aset s.storage id chunk }
      match auditAppend s1 auditOk (mkLine now "STORE" (" " ++ id)) with
      | (.ok _, s2) => (.ok id, s2)
      | (.error e, s2) => (.error e, s2)

/-- `updateChunk(id, metadata, content?)`: read, throw ChunkNotFound if
absent; merge the metadata over the chunk, force the id back, stamp
`updated=now`, replace the content when given; write; append an UPDATE
audit line. -/
def updateChunk (s : MState) (id : String) (m : PartialChunk)
    (content? : Option String) (now : String) (auditOk : Bool) :
    Except MemErr Unit × MState :=
  match alookup s.storage id with
  | none => (.error (.chunkNotFound id), s)
  | some existing =>
    let merged := mergeChunk existing m
    let merged := { merged with id := id, updated := now }
    let merged :=
      match content? with
      | some ct => { merged with content := ct }
      | none => merged
    let s1 := { s with storage := aset s.storage id merged }
    auditAppend s1 auditOk (mkLine now "UPDATE" (" " ++ id))

/-- `readMany(ids)`: the chunks that resolve, in input order, silently
dropping unknown ids. -/
def readMany (storage : List (String × Chunk)) (ids : List String) : List Chunk :=
  ids.filterMap fun id => alookup storage id

/-- `query(searchText, limit)` given the ids returned by the semantic
index: return empty when none; read the chunks, bump `retrieved_count`,
stamp `accessed=now` and write each back; append QUERY then RETRIEVE audit
lines; return the chunks with content stripped. -/
def query (s : MState) (resultIds : List String) (now : String)
    (auditOk : Bool) : Except MemErr (List Chunk) × MState :=
  if resultIds = [] then (.ok [], s)
  else
    let chunks := readMany s.storage resultIds
    let storage1 := chunks.foldl
      (fun st c =>
        aset st c.id { c with retrieved_count := c.retrieved_count + 1, accessed := now })
      s.storage
    let s1 := { s with storage := storage1 }
    match auditAppend s1 auditOk (mkLine now "QUERY" "") with
    | (.ok _, s2) =>
      match auditAppend s2 auditOk (mkLine now "RETRIEVE" "") with
      | (.ok _, s3) =>
        (.ok (chunks.map fun c =>
          { c with content := "", retrieved_count := c.retrieved_count + 1,
                   accessed := now }), s3)
      | (.error e, s3) => (.error e, s3)
    | (.error e, s2) => (.error e, s2)

/-- `markRelevant(ids)`: for each id that resolves, bump `relevant_count`
and stamp `last_relevant_date=now`, writing back; unknown ids are skipped;
append one RELEVANT audit line at the end. -/
def markRelevant (s : MState) (ids : List String) (now : String)
    (auditOk : Bool) : Except MemErr Unit × MState :=
  let storage1 := ids.foldl
    (fun st id =>
      match alookup st id with
      | some c =>
        aset st id { c with relevant_count := c.relevant_count + 1,
                            last_relevant_date := some now }
      | none => st)
    s.storage
  auditAppend { s with storage := storage1 } auditOk (mkLine now "RELEVANT" "")

/-- `markObsolete(id, reason)`: read, throw ChunkNotFound if absent; set
`status=archived`, stamp `updated=now`, append `[Obsoleted: reason]` to
`context_notes` (on its own line when the notes are truthy); write; append
an OBSOLETE audit line. -/
def markObsolete (s : MState) (id reason : String) (now : String)
    (auditOk : Bool) : Except MemErr Unit × MState :=
  match alookup s.storage id with
  | none => (.error (.chunkNotFound id), s)
  | some c =>
    let note := "[Obsoleted: " ++ reason ++ "]"
    let notes :=
      match c.context_notes with
      | some cn => if cn = "" then note else cn ++ "\n" ++ note
      | none => note
    let c1 := { c with status := "archived", updated := now,
                       context_notes := some notes }
    let s1 := { s with storage := aset s.storage id c1 }
    auditAppend s1 auditOk (mkLine now "OBSOLETE" (" " ++ id))

end MemoryStore

/-- One orchestrator operation with its oracle inputs (randomness stream,
index query response, clock reading, audit-append outcome). -/
inductive Op where
  | store (content : String) (m : PartialChunk) (draws : Nat → Nat)
      (now : String) (auditOk : Bool)
  | update (id : String) (m : PartialChunk) (content? : Option String)
      (now : String) (auditOk : Bool)
  | queryOp (resultIds : List String) (now : String) (auditOk : Bool)
  | markRel (ids : List String) (now : String) (auditOk : Bool)
  | markObs (id reason : String) (now : String) (auditOk : Bool)

/-- Apply one operation, keeping the post-state whether or not the
operation throws (thrown errors do not roll anything back). -/
def applyOp (s : MState) : Op → MState
  | .store content m draws now auditOk =>
    (MemoryStore.storeChunk s content m draws now auditOk).2
  | .update id m content? now auditOk =>
    (MemoryStore.updateChunk s id m content? now auditOk).2
  | .queryOp resultIds now auditOk =>
    (MemoryStore.query s resultIds now auditOk).2
  | .markRel ids now auditOk =>
    (MemoryStore.markRelevant s ids now auditOk).2
  | .markObs id reason now auditOk =>
    (MemoryStore.markObsolete s id reason now auditOk).2

def runOps (s : MState) : List Op → MState
  | [] => s
  | op :: ops => runOps (applyOp s op) ops

/-- The empty store. -/
def emptyMState : MState := { storage := [], audit := [] }

/-- The claim's exception for the counter-monotonicity invariant: an
`updateChunk` whose metadata itself writes a counter field. -/
def Op.countersUntouched : Op → Prop
  | .update _ m _ _ _ => m.retrieved_count = none ∧ m.relevant_count = none
  | _ => True

/-- Storage consistency: every stored chunk's `id` field equals its key
(the source always writes a chunk under its own `id`). -/
def KeysOkL (l : List (String × Chunk)) : Prop :=
  ∀ id c, alookup l id = some c → c.id = id

/-- Counters of `c` are no larger than those of `c'`. -/
def CountersLe (c c' : Chunk) : Prop :=
  c.retrieved_count ≤ c'.retrieved_count ∧ c.relevant_count ≤ c'.relevant_count

/-- Counter monotonicity between two storage snapshots: every id present in
both has non-decreasing counters. -/
def MonoLe (l l' : List (String × Chunk)) : Prop :=
  ∀ id c c', alookup l id = some c → alookup l' id = some c' → CountersLe c c'

/-- Counter monotonicity together with chunk persistence (no orchestrator
operation ever deletes a chunk from storage). -/
def StepOk (l l' : List (String × Chunk)) : Prop :=
  MonoLe l l' ∧ ∀ id c, alookup l id = some c → ∃ c', alookup l' id = some c'

/-- A concrete fully-populated well-formed chunk used to exercise the codec
round-trip. -/
def rtChunk : Chunk :=
  { id := "abc123"
    content := "hello"
    summary := "a summary"
    type := "insight"
    epistemic := "belief"
    status := "active"
    surface_tags := ["tag1", "tag two"]
    related := [⟨"def456", "follows from it"⟩]
    created := "2024-01-01T00:00:00.000Z"
    updated := "2024-01-02T00:00:00.000Z"
    accessed := "2024-01-03T00:00:00.000Z"
    retrieved_count := 3
    relevant_count := 12
    last_relevant_date := some "2024-01-04T00:00:00.000Z"
    expires := none
    context_notes := some "check me" }

/-! # Theorems -/

/-! ## Association-list lemmas -/

section Alist

variable {α β : Type} [DecidableEq α]

@[simp] theorem alookup_aset_self (l : List (α × β)) (a : α) (b : β) :
    alookup (aset l a b) a = some b := by
  induction l with
  | nil => simp [aset, alookup]
  | cons p t ih =>
    by_cases h : p.1 = a
    · subst h
      simp [aset, alookup]
    · simp only [aset, if_neg h, alookup, if_neg h]
      exact ih

theorem alookup_aset_ne (l : List (α × β)) (a a' : α) (b : β) (h : a' ≠ a) :
    alookup (aset l a b) a' = alookup l a' := by
  induction l with
  | nil => simp [aset, alookup, if_neg (Ne.symm h)]
  | cons p t ih =>
    by_cases hp : p.1 = a
    · subst hp
      simp only [aset, if_pos rfl, alookup, if_neg (Ne.symm h)]
    · simp only [aset, if_neg hp, alookup]
      by_cases hp' : p.1 = a'
      · simp only [if_pos hp']
      · simp only [if_neg hp']
        exact ih

@[simp] theorem alookup_aerase_self (l : List (α × β)) (a : α) :
    alookup (aerase l a) a = none := by
  induction l with
  | nil => simp [aerase, alookup]
  | cons p t ih =>
    by_cases h : p.1 = a
    · simp only [aerase, if_pos h]
      exact ih
    · simp only [aerase, if_neg h, alookup, if_neg h]
      exact ih

theorem alookup_aerase_ne (l : List (α × β)) (a a' : α) (h : a' ≠ a) :
    alookup (aerase l a) a' = alookup l a' := by
  induction l with
  | nil => simp [aerase, alookup]
  | cons p t ih =>
    by_cases hp : p.1 = a
    · subst hp
      simp only [aerase, if_pos rfl, alookup, if_neg (fun hh : p.1 = a' => h (hh ▸ rfl))]
      exact ih
    · simp only [aerase, if_neg hp, alookup]
      by_cases hp' : p.1 = a'
      · simp only [if_pos hp']
      · simp only [if_neg hp']
        exact ih

theorem alookup_eq_none_iff (l : List (α × β)) (a : α) :
    alookup l a = none ↔ a ∉ l.map Prod.fst := by
  induction l with
  | nil => simp [alookup]
  | cons p t ih =>
    simp only [alookup, List.map_cons, List.mem_cons]
    by_cases h : p.1 = a
    · simp only [if_pos h]
      constructor
      · intro hh
        cases hh
      · intro hh
        exact absurd (Or.inl h.symm) hh
    · simp only [if_neg h]
      rw [ih]
      constructor
      · intro hh h2
        rcases h2 with h2 | h2
        · exact h h2.symm
        · exact hh h2
      · intro hh h2
        exact hh (Or.inr h2)

theorem mem_keys_aset (l : List (α × β)) (a : α) (b : β) (k : α) :
    k ∈ (aset l a b).map Prod.fst ↔ k = a ∨ k ∈ l.map Prod.fst := by
  induction l with
  | nil => simp [aset]
  | cons p t ih =>
    by_cases h : p.1 = a
    · simp only [aset, if_pos h, List.map_cons, List.mem_cons]
      rw [h]
      tauto
    · simp only [aset, if_neg h, List.map_cons, List.mem_cons, ih]
      tauto

theorem nodup_keys_aset (l : List (α × β)) (a : α) (b : β)
    (h : (l.map Prod.fst).Nodup) : ((aset l a b).map Prod.fst).Nodup := by
  induction l with
  | nil => simp [aset]
  | cons p t ih =>
    simp only [List.map_cons, List.nodup_cons] at h
    by_cases hp : p.1 = a
    · subst hp
      simpa [aset] using h
    · simp only [aset, if_neg hp, List.map_cons, List.nodup_cons]
      refine ⟨fun hm => ?_, ih h.2⟩
      rcases (mem_keys_aset t a b p.1).1 hm with h1 | h1
      · exact hp h1
      · exact h.1 h1

theorem mem_keys_aerase (l : List (α × β)) (a k : α) :
    k ∈ (aerase l a).map Prod.fst → k ∈ l.map Prod.fst := by
  induction l with
  | nil => simp [aerase]
  | cons p t ih =>
    by_cases h : p.1 = a
    · simp only [aerase, if_pos h, List.map_cons]
      intro hm
      exact List.mem_cons_of_mem _ (ih hm)
    · simp only [aerase, if_neg h, List.map_cons, List.mem_cons]
      rintro (h1 | h1)
      · exact Or.inl h1
      · exact Or.inr (ih h1)

theorem nodup_keys_aerase (l : List (α × β)) (a : α)
    (h : (l.map Prod.fst).Nodup) : ((aerase l a).map Prod.fst).Nodup := by
  induction l with
  | nil => simp [aerase]
  | cons p t ih =>
    simp only [List.map_cons, List.nodup_cons] at h
    by_cases hp : p.1 = a
    · simp only [aerase, if_pos hp]
      exact ih h.2
    · simp only [aerase, if_neg hp, List.map_cons, List.nodup_cons]
      exact ⟨fun hm => h.1 (mem_keys_aerase t a p.1 hm), ih h.2⟩

theorem alookup_mem (l : List (α × β)) (a : α) (b : β)
    (h : alookup l a = some b) : (a, b) ∈ l := by
  induction l with
  | nil => simp [alookup] at h
  | cons p t ih =>
    by_cases hp : p.1 = a
    · simp only [alookup, if_pos hp] at h
      cases h
      subst hp
      exact List.mem_cons_self _ _
    · simp only [alookup, if_neg hp] at h
      exact List.mem_cons_of_mem _ (ih h)

end Alist

/-! ## generateUniqueId (claim C9) -/

theorem genLoop_error_shape (ex : String → Bool) (draws : Nat → Nat) :
    ∀ fuel i e, genLoop ex draws i fuel = .error e → e = .idExhausted := by
  intro fuel
  induction fuel with
  | zero =>
    intro i e h
    simp only [genLoop, Except.error.injEq] at h
    exact h.symm
  | succ fuel ih =>
    intro i e h
    cases hx : ex (idAt draws i) <;> simp only [genLoop, hx, if_true, if_false] at h
    · cases h
    · exact ih _ _ h

theorem genLoop_error_iff (ex : String → Bool) (draws : Nat → Nat) :
    ∀ fuel i, genLoop ex draws i fuel = .error .idExhausted ↔
      ∀ j < fuel, ex (idAt draws (i + j)) = true := by
  intro fuel
  induction fuel with
  | zero => simp [genLoop]
  | succ fuel ih =>
    intro i
    cases hx : ex (idAt draws i)
    · simp only [genLoop, hx, if_false]
      constructor
      · intro h
        cases h
      · intro h
        have h0 := h 0 (by omega)
        simp only [Nat.add_zero] at h0
        rw [h0] at hx
        cases hx
    · simp only [genLoop, hx, if_true, ih (i + 1)]
      constructor
      · intro h j hj
        match j, hj with
        | 0, _ => simpa using hx
        | j + 1, hj =>
          have hh := h j (by omega)
          have : i + 1 + j = i + (j + 1) := by omega
          rwa [this] at hh
      · intro h j hj
        have hh := h (j + 1) (by omega)
        have : i + (j + 1) = i + 1 + j := by omega
        rwa [this] at hh

theorem genLoop_ok (ex : String → Bool) (draws : Nat → Nat) :
    ∀ fuel i id, genLoop ex draws i fuel = .ok id →
      ex id = false ∧ ∃ j < fuel, id = idAt draws (i + j) := by
  intro fuel
  induction fuel with
  | zero =>
    intro i id h
    simp [genLoop] at h
  | succ fuel ih =>
    intro i id h
    cases hx : ex (idAt draws i)
    · rw [genLoop, if_neg (by simp [hx])] at h
      cases h
      exact ⟨hx, 0, by omega, by simp⟩
    · rw [genLoop, if_pos hx] at h
      obtain ⟨h1, j, hj, h2⟩ := ih _ _ h
      refine ⟨h1, j + 1, by omega, ?_⟩
      have : i + (j + 1) = i + 1 + j := by omega
      rwa [this]

theorem hexChar_hex (m : Nat) (h : m < 16) :
    (('0' ≤ hexChar m && hexChar m ≤ '9') || ('a' ≤ hexChar m && hexChar m ≤ 'f')) = true := by
  interval_cases m <;> decide

theorem isHex6_toHex6 (n : Nat) : isHex6 (toHex6 n) = true := by
  simp only [isHex6, Bool.and_eq_true]
  refine ⟨rfl, ?_⟩
  rw [List.all_eq_true]
  intro c hc
  have hc' : c = hexChar (n / 16 ^ 5 % 16) ∨ c = hexChar (n / 16 ^ 4 % 16) ∨
      c = hexChar (n / 16 ^ 3 % 16) ∨ c = hexChar (n / 16 ^ 2 % 16) ∨
      c = hexChar (n / 16 % 16) ∨ c = hexChar (n % 16) := by
    simpa [toHex6] using hc
  rcases hc' with rfl | rfl | rfl | rfl | rfl | rfl <;>
    exact hexChar_hex _ (Nat.mod_lt _ (by omega))

/-- Claim C9: generateUniqueId returns a hex-encoded id that does not
already exist in the id-to-filename mapping whenever one of the first 100
draws is fresh, and fails with IdExhausted exactly when the first 100
consecutive generated ids all collide with existing ids. -/
theorem generateUniqueId_spec (ex : String → Bool) (draws : Nat → Nat) :
    ((∃ i, i < 100 ∧ ex (idAt draws i) = false) →
      ∃ id, generateUniqueId ex draws = .ok id ∧ ex id = false ∧ isHex6 id = true) ∧
    (generateUniqueId ex draws = .error .idExhausted ↔
      ∀ i, i < 100 → ex (idAt draws i) = true) := by
  constructor
  · intro ⟨i, hi, hfresh⟩
    have hnotall : ¬ (∀ j < 100, ex (idAt draws (0 + j)) = true) := by
      intro h
      have hh := h i hi
      simp only [Nat.zero_add] at hh
      rw [hh] at hfresh
      cases hfresh
    have hne : generateUniqueId ex draws ≠ .error .idExhausted := by
      intro h
      exact hnotall ((genLoop_error_iff ex draws 100 0).1 h)
    cases hh : generateUniqueId ex draws with
    | ok id =>
      obtain ⟨h1, j, _, hid⟩ := genLoop_ok ex draws 100 0 id hh
      subst hid
      exact ⟨_, rfl, h1, isHex6_toHex6 _⟩
    | error e =>
      have he := genLoop_error_shape ex draws 100 0 e hh
      subst he
      exact absurd hh hne
  · constructor
    · intro h i hi
      have hh := (genLoop_error_iff ex draws 100 0).1 h i hi
      simpa using hh
    · intro h
      refine (genLoop_error_iff ex draws 100 0).2 fun j hj => ?_
      simpa using h j hj

/-- Witness for C9 at a concrete collision-free stream. -/
theorem generateUniqueId_spec_witness :
    ∃ id, generateUniqueId (fun _ => false) (fun _ => 0) = .ok id ∧
      (fun (_ : String) => false) id = false ∧ isHex6 id = true :=
  (generateUniqueId_spec (fun _ => false) (fun _ => 0)).1 ⟨0, by omega, rfl⟩

/-! ## Filename-prefix filtering (claim C4) -/

theorem buildIndex_mem (files : List String) (id fn : String) :
    alookup (buildIndex files) id = some fn →
      endsWithMd fn = true ∧ idOfFilename fn = id ∧ id.data.length = 6 := by
  have main : ∀ (fs : List String) (m : List (String × String)),
      (∀ id' fn', alookup m id' = some fn' →
        endsWithMd fn' = true ∧ idOfFilename fn' = id' ∧ id'.data.length = 6) →
      ∀ id' fn', alookup (fs.foldl
        (fun m file =>
          if endsWithMd file then
            if idOfFilename file ≠ "" ∧ (idOfFilename file).data.length = 6 then
              aset m (idOfFilename file) file
            else m
          else m) m) id' = some fn' →
        endsWithMd fn' = true ∧ idOfFilename fn' = id' ∧ id'.data.length = 6 := by
    intro fs
    induction fs with
    | nil =>
      intro m hm id' fn' h
      exact hm id' fn' h
    | cons f fs ih =>
      intro m hm id' fn' h
      rw [List.foldl_cons] at h
      refine ih _ ?_ id' fn' h
      intro id2 fn2 h2
      by_cases hmd : endsWithMd f = true
      · rw [if_pos hmd] at h2
        by_cases hid : idOfFilename f ≠ "" ∧ (idOfFilename f).data.length = 6
        · rw [if_pos hid] at h2
          by_cases heq : id2 = idOfFilename f
          · subst heq
            rw [alookup_aset_self] at h2
            cases h2
            exact ⟨hmd, rfl, hid.2⟩
          · rw [alookup_aset_ne _ _ _ _ heq] at h2
            exact hm _ _ h2
        · rw [if_neg hid] at h2
          exact hm _ _ h2
      · rw [if_neg hmd] at h2
        exact hm _ _ h2
  intro h
  unfold buildIndex at h
  exact main files [] (by intro id' fn' h'; simp [alookup] at h') id fn h

/-- The counterexample file: `.md`, 6-character prefix, but not hex. -/
theorem buildIndex_not_hex_counterexample :
    alookup (buildIndex ["ZZZZZZ-x.md"]) "ZZZZZZ" = some "ZZZZZZ-x.md" ∧
      isHex6 "ZZZZZZ" = false ∧ watcherAccepts "ZZZZZZ-x.md" = true := by
  refine ⟨?_, by decide, by decide⟩
  decide

/-- Claim C4 (amended): when building the id-to-filename index and when
handling a watcher event, a filename prefix is rejected exactly when it is
empty or its length differs from 6; the hex check of the claim is not
performed, so any 6-character prefix (hex or not) is accepted.  Every entry
of the built index comes from an `.md` file whose length-6 prefix is its
key, and the watcher guard accepts exactly the length-6 prefixes. -/
theorem prefix_filtering_spec (files : List String) (id fn : String) (f : String) :
    (alookup (buildIndex files) id = some fn →
      endsWithMd fn = true ∧ idOfFilename fn = id ∧ id.data.length = 6) ∧
    (watcherAccepts f = true ↔ idOfFilename f ≠ "" ∧ (idOfFilename f).data.length = 6) := by
  constructor
  · exact buildIndex_mem files id fn
  · simp only [watcherAccepts, Bool.not_eq_true', Bool.or_eq_false_iff,
      decide_eq_false_iff_not, ne_eq]
    constructor
    · intro ⟨h1, h2⟩
      exact ⟨h1, by simpa using h2⟩
    · intro ⟨h1, h2⟩
      exact ⟨h1, by simpa using h2⟩

/-- Witness for C4 at a concrete file list. -/
theorem prefix_filtering_spec_witness :
    (endsWithMd "abc123-note.md" = true ∧ idOfFilename "abc123-note.md" = "abc123" ∧
      ("abc123" : String).data.length = 6) ∧
    (watcherAccepts "abc123-note.md" = true) :=
  ⟨(prefix_filtering_spec ["abc123-note.md"] "abc123" "abc123-note.md" "abc123-note.md").1
      (by decide),
    (prefix_filtering_spec ["abc123-note.md"] "abc123" "abc123-note.md" "abc123-note.md").2.2
      (by decide)⟩

/-! ## Semantic index facade: invariants and operation contracts -/

theorem alookup_aerase_some {α β : Type} [DecidableEq α]
    (l : List (α × β)) (a a' : α) (b : β)
    (h : alookup (aerase l a) a' = some b) : alookup l a' = some b := by
  by_cases hx : a' = a
  · subst hx
    rw [alookup_aerase_self] at h
    cases h
  · rwa [alookup_aerase_ne _ _ _ hx] at h

theorem inverse_aset {α β : Type} [DecidableEq α] [DecidableEq β]
    (A : List (α × β)) (B : List (β × α)) (a : α) (b : β)
    (hinv : ∀ x y, alookup A x = some y ↔ alookup B y = some x)
    (hA : alookup A a = none) (hB : alookup B b = none) :
    ∀ x y, alookup (aset A a b) x = some y ↔ alookup (aset B b a) y = some x := by
  intro x y
  by_cases hx : x = a
  · by_cases hy : y = b
    · rw [hx, hy, alookup_aset_self, alookup_aset_self]
      simp
    · rw [hx, alookup_aset_self, alookup_aset_ne _ _ _ _ hy]
      constructor
      · intro h
        injection h with h
        exact absurd h.symm hy
      · intro h
        have hh := (hinv a y).2 h
        rw [hA] at hh
        simp at hh
  · by_cases hy : y = b
    · rw [hy, alookup_aset_self, alookup_aset_ne _ _ _ _ hx]
      constructor
      · intro h
        have hh := (hinv x b).1 h
        rw [hB] at hh
        simp at hh
      · intro h
        injection h with h
        exact absurd h.symm hx
    · rw [alookup_aset_ne _ _ _ _ hx, alookup_aset_ne _ _ _ _ hy]
      exact hinv x y

namespace SemanticIndex

theorem inv_reset (s : SemState) : Inv (reset s) := by
  refine ⟨⟨List.nodup_nil, List.nodup_nil, List.nodup_nil⟩, ?_, ?_, ?_, ?_⟩
  · intro id n
    simp [reset, alookup]
  · intro n hn
    simp [reset] at hn
  · intro id n h
    simp [reset, alookup] at h
  · intro n hn
    simp [reset] at hn

theorem inv_remove (id : String) (s : SemState) (h : Inv s) :
    Inv (removeDocument id s).2 := by
  obtain ⟨⟨h1, h2, h3⟩, hinv, hdel, hbA, hbD⟩ := h
  cases hl : alookup s.idToIndex id with
  | none =>
    simp only [removeDocument, hl]
    exact ⟨⟨h1, h2, h3⟩, hinv, hdel, hbA, hbD⟩
  | some n =>
    have hBn : alookup s.indexToId n = some id := (hinv id n).1 hl
    simp only [removeDocument, hl]
    refine ⟨⟨nodup_keys_aerase _ _ h1, nodup_keys_aerase _ _ h2, ?_⟩, ?_, ?_, ?_, ?_⟩
    · rw [List.nodup_append]
      refine ⟨h3, List.nodup_singleton n, ?_⟩
      intro a ha ha'
      rcases List.mem_singleton.1 ha' with rfl
      rw [hdel a ha] at hBn
      cases hBn
    · intro x y
      by_cases hx : x = id
      · rw [hx, alookup_aerase_self]
        constructor
        · intro hh
          simp at hh
        · intro hh
          by_cases hy : y = n
          · rw [hy, alookup_aerase_self] at hh
            simp at hh
          · rw [alookup_aerase_ne _ _ _ hy] at hh
            have h5 := (hinv id y).2 hh
            rw [hl] at h5
            injection h5 with h5
            exact absurd h5.symm hy
      · rw [alookup_aerase_ne _ _ _ hx]
        by_cases hy : y = n
        · rw [hy, alookup_aerase_self]
          constructor
          · intro hh
            have h5 := (hinv x n).1 hh
            rw [hBn] at h5
            injection h5 with h5
            exact absurd h5.symm hx
          · intro hh
            simp at hh
        · rw [alookup_aerase_ne _ _ _ hy]
          exact hinv x y
    · intro m hm
      have hm' : m ∈ s.deletedIndices ++ [n] := hm
      show alookup (aerase s.indexToId n) m = none
      rcases List.mem_append.1 hm' with h6 | h6
      · have hne : m ≠ n := by
          intro he
          rw [he] at h6
          rw [hdel n h6] at hBn
          exact Option.noConfusion hBn
        rw [alookup_aerase_ne _ _ _ hne]
        exact hdel m h6
      · rcases List.mem_singleton.1 h6 with rfl
        exact alookup_aerase_self _ _
    · intro x y hh
      have hh' : alookup (aerase s.idToIndex id) x = some y := hh
      show y < s.nextIndex
      exact hbA x y (alookup_aerase_some _ _ _ _ hh')
    · intro m hm
      have hm' : m ∈ s.deletedIndices ++ [n] := hm
      show m < s.nextIndex
      rcases List.mem_append.1 hm' with h6 | h6
      · exact hbD m h6
      · rcases List.mem_singleton.1 h6 with rfl
        exact hbA id _ hl

theorem allocSlot_nil (id : String) (s1 : SemState) (hd : s1.deletedIndices = []) :
    allocSlot id s1 =
      if s1.maxElements ≤ s1.nextIndex then
        (.error .capacityExceeded, { s1 with nextIndex := s1.nextIndex + 1 })
      else
        (.ok (), { s1 with nextIndex := s1.nextIndex + 1,
                           idToIndex := aset s1.idToIndex id s1.nextIndex,
                           indexToId := aset s1.indexToId s1.nextIndex id }) := by
  unfold allocSlot
  rw [hd]

theorem allocSlot_cons (id : String) (s1 : SemState) (n : Nat) (rest : List Nat)
    (hd : s1.deletedIndices = n :: rest) :
    allocSlot id s1 =
      if s1.maxElements ≤ n then
        (.error .capacityExceeded, { s1 with deletedIndices := rest })
      else
        (.ok (), { s1 with deletedIndices := rest,
                           idToIndex := aset s1.idToIndex id n,
                           indexToId := aset s1.indexToId n id }) := by
  unfold allocSlot
  rw [hd]

theorem inv_allocSlot (id : String) (s1 : SemState) (h1 : Inv s1)
    (hid : alookup s1.idToIndex id = none) : Inv (allocSlot id s1).2 := by
  obtain ⟨⟨n1, n2, n3⟩, hinv, hdel, hbA, hbD⟩ := h1
  cases hd : s1.deletedIndices with
  | nil =>
    rw [allocSlot_nil id s1 hd]
    by_cases hcap : s1.maxElements ≤ s1.nextIndex
    · rw [if_pos hcap]
      show Inv { s1 with nextIndex := s1.nextIndex + 1 }
      refine ⟨⟨n1, n2, n3⟩, hinv, hdel, ?_, ?_⟩
      · intro x y hh
        show y < s1.nextIndex + 1
        exact Nat.lt_succ_of_lt (hbA x y hh)
      · intro m hm
        show m < s1.nextIndex + 1
        exact Nat.lt_succ_of_lt (hbD m hm)
    · rw [if_neg hcap]
      show Inv { s1 with nextIndex := s1.nextIndex + 1,
                         idToIndex := aset s1.idToIndex id s1.nextIndex,
                         indexToId := aset s1.indexToId s1.nextIndex id }
      have hBn : alookup s1.indexToId s1.nextIndex = none := by
        cases hb : alookup s1.indexToId s1.nextIndex with
        | none => rfl
        | some x =>
          have hh := (hinv x s1.nextIndex).2 hb
          have := hbA x s1.nextIndex hh
          omega
      refine ⟨⟨nodup_keys_aset _ _ _ n1, nodup_keys_aset _ _ _ n2, n3⟩,
        inverse_aset _ _ _ _ hinv hid hBn, ?_, ?_, ?_⟩
      · intro m hm
        have hm' : m ∈ s1.deletedIndices := hm
        rw [hd] at hm'
        simp at hm'
      · intro x y hh
        have hh' : alookup (aset s1.idToIndex id s1.nextIndex) x = some y := hh
        show y < s1.nextIndex + 1
        by_cases hx : x = id
        · rw [hx, alookup_aset_self] at hh'
          injection hh' with hh'
          omega
        · rw [alookup_aset_ne _ _ _ _ hx] at hh'
          have := hbA x y hh'
          omega
      · intro m hm
        have hm' : m ∈ s1.deletedIndices := hm
        rw [hd] at hm'
        simp at hm'
  | cons n rest =>
    have hnmem : n ∈ s1.deletedIndices := by
      rw [hd]
      exact List.mem_cons_self _ _
    have hBn : alookup s1.indexToId n = none := hdel n hnmem
    have hrest : ∀ m ∈ rest, m ∈ s1.deletedIndices := by
      intro m hm
      rw [hd]
      exact List.mem_cons_of_mem _ hm
    have hrestnodup : rest.Nodup := by
      rw [hd] at n3
      exact n3.of_cons
    have hnrest : n ∉ rest := by
      rw [hd] at n3
      exact (List.nodup_cons.1 n3).1
    rw [allocSlot_cons id s1 n rest hd]
    by_cases hcap : s1.maxElements ≤ n
    · rw [if_pos hcap]
      show Inv { s1 with deletedIndices := rest }
      exact ⟨⟨n1, n2, hrestnodup⟩, hinv, fun m hm => hdel m (hrest m hm), hbA,
        fun m hm => hbD m (hrest m hm)⟩
    · rw [if_neg hcap]
      show Inv { s1 with deletedIndices := rest,
                         idToIndex := aset s1.idToIndex id n,
                         indexToId := aset s1.indexToId n id }
      refine ⟨⟨nodup_keys_aset _ _ _ n1, nodup_keys_aset _ _ _ n2, hrestnodup⟩,
        inverse_aset _ _ _ _ hinv hid hBn, ?_, ?_, ?_⟩
      · intro m hm
        have hm' : m ∈ rest := hm
        have hmn : m ≠ n := fun he => hnrest (he ▸ hm')
        show alookup (aset s1.indexToId n id) m = none
        rw [alookup_aset_ne _ _ _ _ hmn]
        exact hdel m (hrest m hm')
      · intro x y hh
        have hh' : alookup (aset s1.idToIndex id n) x = some y := hh
        show y < s1.nextIndex
        by_cases hx : x = id
        · rw [hx, alookup_aset_self] at hh'
          injection hh' with hh'
          rw [← hh']
          exact hbD n hnmem
        · rw [alookup_aset_ne _ _ _ _ hx] at hh'
          exact hbA x y hh'
      · intro m hm
        have hm' : m ∈ rest := hm
        show m < s1.nextIndex
        exact hbD m (hrest m hm')

theorem removed_lookup_none (id : String) (s : SemState)
    (hp : (alookup s.idToIndex id).isSome) :
    alookup ((removeDocument id s).2).idToIndex id = none := by
  obtain ⟨n, hn⟩ := Option.isSome_iff_exists.1 hp
  simp only [removeDocument, hn]
  exact alookup_aerase_self _ _

theorem inv_add (id text : String) (s : SemState) (h : Inv s) :
    Inv (addDocument id text s).2 := by
  unfold addDocument
  by_cases hp : (alookup s.idToIndex id).isSome
  · rw [if_pos hp]
    exact inv_allocSlot id _ (inv_remove id s h) (removed_lookup_none id s hp)
  · rw [if_neg hp]
    refine inv_allocSlot id _ h ?_
    cases hl : alookup s.idToIndex id with
    | none => rfl
    | some n =>
      rw [hl] at hp
      exact absurd rfl hp

theorem inv_update (id text : String) (s : SemState) (h : Inv s) :
    Inv (updateDocument id text s).2 :=
  inv_add id text _ (inv_remove id s h)

end SemanticIndex

/-- Claim C10: after reset and after every completed addDocument,
removeDocument and updateDocument call, idToIndex and indexToId are
mutually inverse key-distinct finite maps, no slot in deletedIndices is
mapped in indexToId, and every mapped or deleted slot is strictly less
than nextIndex. -/
theorem semanticIndex_invariant (s : SemState) (id text : String) :
    SemanticIndex.Inv (SemanticIndex.reset s) ∧
    (SemanticIndex.Inv s → SemanticIndex.Inv (SemanticIndex.removeDocument id s).2) ∧
    (SemanticIndex.Inv s → SemanticIndex.Inv (SemanticIndex.addDocument id text s).2) ∧
    (SemanticIndex.Inv s → SemanticIndex.Inv (SemanticIndex.updateDocument id text s).2) :=
  ⟨SemanticIndex.inv_reset s, SemanticIndex.inv_remove id s,
    SemanticIndex.inv_add id text s, SemanticIndex.inv_update id text s⟩

/-- Witness for C10: the invariant holds after a reset and is carried
through an addDocument at a concrete state. -/
theorem semanticIndex_invariant_witness :
    SemanticIndex.Inv (SemanticIndex.addDocument "abc123" "t"
      (SemanticIndex.reset ⟨[], [], 0, [], 10⟩)).2 :=
  (semanticIndex_invariant (SemanticIndex.reset ⟨[], [], 0, [], 10⟩) "abc123" "t").2.2.1
    (semanticIndex_invariant ⟨[], [], 0, [], 10⟩ "abc123" "t").1

/-! ## addDocument allocation order (claim C5) -/

namespace SemanticIndex

theorem removeDocument_some (id : String) (s : SemState) (n : Nat)
    (hn : alookup s.idToIndex id = some n) :
    removeDocument id s = (true,
      { s with idToIndex := aerase s.idToIndex id,
               indexToId := aerase s.indexToId n,
               deletedIndices := s.deletedIndices ++ [n] }) := by
  unfold removeDocument
  rw [hn]

theorem removeDocument_none (id : String) (s : SemState)
    (hn : alookup s.idToIndex id = none) : removeDocument id s = (false, s) := by
  unfold removeDocument
  rw [hn]

theorem inBounds_remove (id : String) (s : SemState) (hb : InBounds s) :
    InBounds (removeDocument id s).2 := by
  cases hn : alookup s.idToIndex id with
  | none =>
    rw [removeDocument_none id s hn]
    exact hb
  | some n =>
    rw [removeDocument_some id s n hn]
    refine ⟨?_, ?_⟩
    · intro x y hh
      exact hb.1 x y (alookup_aerase_some _ _ _ _ hh)
    · intro m hm
      rcases List.mem_append.1 hm with h6 | h6
      · exact hb.2 m h6
      · rcases List.mem_singleton.1 h6 with rfl
        exact hb.1 id _ hn

end SemanticIndex

/-- Claim C5 (amended): addDocument removes an already-present id first;
the slot allocated is the oldest-freed slot (the first element of the free
set in insertion order — not the smallest) when the free set is non-empty,
and otherwise nextSlot, which is then incremented; from an
invariant-satisfying in-bounds state the call fails with CapacityExceeded
exactly when the id is new, the free set is empty and nextSlot has reached
maxElements, and on failure the facade maps and free set are unchanged
(the nextSlot increment does survive the failure). -/
theorem addDocument_spec (s : SemState) (id text : String)
    (hb : SemanticIndex.InBounds s) :
    (∀ e, (SemanticIndex.addDocument id text s).1 = .error e → e = .capacityExceeded) ∧
    ((SemanticIndex.addDocument id text s).1 = .error .capacityExceeded ↔
      alookup s.idToIndex id = none ∧ s.deletedIndices = [] ∧
        s.maxElements ≤ s.nextIndex) ∧
    ((SemanticIndex.addDocument id text s).1 = .error .capacityExceeded →
      ((SemanticIndex.addDocument id text s).2).idToIndex = s.idToIndex ∧
      ((SemanticIndex.addDocument id text s).2).indexToId = s.indexToId ∧
      ((SemanticIndex.addDocument id text s).2).deletedIndices = s.deletedIndices ∧
      ((SemanticIndex.addDocument id text s).2).nextIndex = s.nextIndex + 1) ∧
    ((SemanticIndex.addDocument id text s).1 = .ok () →
      ∃ slot,
        alookup ((SemanticIndex.addDocument id text s).2).idToIndex id = some slot ∧
        alookup ((SemanticIndex.addDocument id text s).2).indexToId slot = some id ∧
        slot < s.maxElements ∧
        ((∃ rest,
            (if (alookup s.idToIndex id).isSome then
              (SemanticIndex.removeDocument id s).2 else s).deletedIndices = slot :: rest ∧
            ((SemanticIndex.addDocument id text s).2).deletedIndices = rest ∧
            ((SemanticIndex.addDocument id text s).2).nextIndex =
              (if (alookup s.idToIndex id).isSome then
                (SemanticIndex.removeDocument id s).2 else s).nextIndex) ∨
          ((if (alookup s.idToIndex id).isSome then
              (SemanticIndex.removeDocument id s).2 else s).deletedIndices = [] ∧
            slot = s.nextIndex ∧
            ((SemanticIndex.addDocument id text s).2).nextIndex = slot + 1))) := by
  classical
  set d := if (alookup s.idToIndex id).isSome then
    (SemanticIndex.removeDocument id s).2 else s with hdDef
  have hadd : SemanticIndex.addDocument id text s = SemanticIndex.allocSlot id d := rfl
  have hdmax : d.maxElements = s.maxElements := by
    by_cases hp : (alookup s.idToIndex id).isSome
    · obtain ⟨n, hn⟩ := Option.isSome_iff_exists.1 hp
      rw [hdDef, if_pos hp, SemanticIndex.removeDocument_some id s n hn]
    · rw [hdDef, if_neg hp]
  have hdnext : d.nextIndex = s.nextIndex := by
    by_cases hp : (alookup s.idToIndex id).isSome
    · obtain ⟨n, hn⟩ := Option.isSome_iff_exists.1 hp
      rw [hdDef, if_pos hp, SemanticIndex.removeDocument_some id s n hn]
    · rw [hdDef, if_neg hp]
  have hbd : SemanticIndex.InBounds d := by
    by_cases hp : (alookup s.idToIndex id).isSome
    · rw [hdDef, if_pos hp]
      exact SemanticIndex.inBounds_remove id s hb
    · rw [hdDef, if_neg hp]
      exact hb
  have hfree_ne : (alookup s.idToIndex id).isSome → d.deletedIndices ≠ [] := by
    intro hp
    obtain ⟨n, hn⟩ := Option.isSome_iff_exists.1 hp
    rw [hdDef, if_pos hp, SemanticIndex.removeDocument_some id s n hn]
    simp
  cases hd : d.deletedIndices with
  | cons n rest =>
    have hnlt : n < s.maxElements := by
      have hmem := hbd.2 n (by rw [hd]; exact List.mem_cons_self _ _)
      rwa [hdmax] at hmem
    rw [hadd, SemanticIndex.allocSlot_cons id d n rest hd, if_neg (by omega)]
    refine ⟨?_, ?_, ?_, ?_⟩
    · intro e he
      simp at he
    · constructor
      · intro he
        simp at he
      · intro ⟨h1, h2, _⟩
        by_cases hp : (alookup s.idToIndex id).isSome
        · rw [h1] at hp
          simp at hp
        · rw [hdDef, if_neg hp] at hd
          rw [h2] at hd
          cases hd
    · intro he
      simp at he
    · intro _
      refine ⟨n, ?_, ?_, hnlt, Or.inl ⟨rest, rfl, rfl, rfl⟩⟩
      · show alookup (aset d.idToIndex id n) id = some n
        exact alookup_aset_self _ _ _
      · show alookup (aset d.indexToId n id) n = some id
        exact alookup_aset_self _ _ _
  | nil =>
    have hp : ¬ (alookup s.idToIndex id).isSome := by
      intro hp
      exact hfree_ne hp hd
    have hds : d = s := by
      rw [hdDef, if_neg hp]
    have habs : alookup s.idToIndex id = none := by
      cases hl : alookup s.idToIndex id with
      | none => rfl
      | some n =>
        rw [hl] at hp
        simp at hp
    by_cases hcap : s.maxElements ≤ s.nextIndex
    · rw [hadd, SemanticIndex.allocSlot_nil id d hd,
        if_pos (by rw [hdmax, hdnext]; exact hcap)]
      refine ⟨?_, ?_, ?_, ?_⟩
      · intro e he
        simp at he
        rw [← he]
      · constructor
        · intro _
          exact ⟨habs, by rw [← hds, hd], hcap⟩
        · intro _
          rfl
      · intro _
        refine ⟨?_, ?_, ?_, ?_⟩
        · show d.idToIndex = s.idToIndex
          rw [hds]
        · show d.indexToId = s.indexToId
          rw [hds]
        · show d.deletedIndices = s.deletedIndices
          rw [hds]
        · show d.nextIndex + 1 = s.nextIndex + 1
          rw [hdnext]
      · intro he
        simp at he
    · rw [hadd, SemanticIndex.allocSlot_nil id d hd,
        if_neg (by rw [hdmax, hdnext]; exact hcap)]
      refine ⟨?_, ?_, ?_, ?_⟩
      · intro e he
        simp at he
      · constructor
        · intro he
          simp at he
        · intro ⟨_, _, h3⟩
          exact absurd h3 hcap
      · intro he
        simp at he
      · intro _
        refine ⟨d.nextIndex, ?_, ?_, ?_, Or.inr ⟨rfl, hdnext, rfl⟩⟩
        · show alookup (aset d.idToIndex id d.nextIndex) id = some d.nextIndex
          exact alookup_aset_self _ _ _
        · show alookup (aset d.indexToId d.nextIndex id) d.nextIndex = some id
          exact alookup_aset_self _ _ _
        · rw [hdnext]
          omega

/-- Witness for C5 at a concrete state satisfying the in-bounds side
condition. -/
theorem addDocument_spec_witness :
    ∃ slot,
      alookup ((SemanticIndex.addDocument "abc123" "t" ⟨[], [], 0, [], 10⟩).2).idToIndex
        "abc123" = some slot ∧ slot < 10 := by
  obtain ⟨slot, h1, -, h3, -⟩ :=
    (addDocument_spec ⟨[], [], 0, [], 10⟩ "abc123" "t"
      (by refine ⟨?_, ?_⟩ <;> simp [alookup])).2.2.2 rfl
  exact ⟨slot, h1, h3⟩

/-! ## Semantic query (claim C6) -/

theorem inverse_of_mem {A : List (String × Nat)} {B : List (Nat × String)}
    (hA : ∀ p ∈ A, alookup B p.2 = some p.1)
    (hB : ∀ p ∈ B, alookup A p.2 = some p.1) :
    ∀ id n, alookup A id = some n ↔ alookup B n = some id := by
  intro id n
  constructor
  · intro h
    exact hA (id, n) (alookup_mem _ _ _ h)
  · intro h
    exact hB (n, id) (alookup_mem _ _ _ h)

theorem bound_of_mem {α : Type} [DecidableEq α] {A : List (α × Nat)} {m : Nat}
    (h : ∀ p ∈ A, p.2 < m) : ∀ x n, alookup A x = some n → n < m :=
  fun x n hh => h (x, n) (alookup_mem _ _ _ hh)

theorem query_aux_snd (s : SemState) (res : List (Nat × ℚ)) :
    ((res.filterMap fun p =>
      match alookup s.indexToId p.1 with
      | some id => if id = "" then none else some (id, p.2)
      | none => none).map Prod.snd).Sublist (res.map Prod.snd) := by
  induction res with
  | nil => simp
  | cons p t ih =>
    cases hl : alookup s.indexToId p.1 with
    | none =>
      simp only [List.filterMap_cons, hl, List.map_cons]
      exact ih.cons _
    | some id =>
      by_cases hid : id = ""
      · simp only [List.filterMap_cons, hl, if_pos hid, List.map_cons]
        exact ih.cons _
      · simp only [List.filterMap_cons, hl, if_neg hid, List.map_cons]
        exact ih.cons₂ _

theorem query_aux_fst (s : SemState)
    (hinv : ∀ id n, alookup s.idToIndex id = some n ↔ alookup s.indexToId n = some id) :
    ∀ res : List (Nat × ℚ), (res.map Prod.fst).Nodup →
      ((res.filterMap fun p =>
        match alookup s.indexToId p.1 with
        | some id => if id = "" then none else some (id, p.2)
        | none => none).map Prod.fst).Nodup := by
  intro res
  induction res with
  | nil => simp
  | cons p t ih =>
    intro hnd
    rw [List.map_cons, List.nodup_cons] at hnd
    cases hl : alookup s.indexToId p.1 with
    | none =>
      simp only [List.filterMap_cons, hl]
      exact ih hnd.2
    | some id =>
      by_cases hid : id = ""
      · simp only [List.filterMap_cons, hl, if_pos hid]
        exact ih hnd.2
      · simp only [List.filterMap_cons, hl, if_neg hid, List.map_cons, List.nodup_cons]
        refine ⟨?_, ih hnd.2⟩
        intro hmem
        obtain ⟨q, hq, hq1⟩ := List.mem_map.1 hmem
        obtain ⟨p', hp't, hp'f⟩ := List.mem_filterMap.1 hq
        have hl' : alookup s.indexToId p'.1 = some q.1 := by
          cases hl2 : alookup s.indexToId p'.1 with
          | none =>
            rw [hl2] at hp'f
            simp at hp'f
          | some id2 =>
            simp only [hl2] at hp'f
            by_cases hid2 : id2 = ""
            · rw [if_pos hid2] at hp'f
              simp at hp'f
            · rw [if_neg hid2] at hp'f
              injection hp'f with hp'f
              obtain rfl := hp'f
              rfl
        rw [hq1] at hl'
        have h1 : alookup s.idToIndex id = some p.1 := (hinv id p.1).2 hl
        have h2 : alookup s.idToIndex id = some p'.1 := (hinv id p'.1).2 hl'
        rw [h1] at h2
        injection h2 with h2
        exact hnd.1 (h2 ▸ List.mem_map_of_mem Prod.fst hp't)

theorem query_aux_mem (s : SemState) (res : List (Nat × ℚ)) :
    ∀ q ∈ (res.filterMap fun p =>
      match alookup s.indexToId p.1 with
      | some id => if id = "" then none else some (id, p.2)
      | none => none),
      ∃ slot, (slot, q.2) ∈ res ∧ alookup s.indexToId slot = some q.1 := by
  intro q hq
  obtain ⟨p, hpmem, hpf⟩ := List.mem_filterMap.1 hq
  cases hl : alookup s.indexToId p.1 with
  | none =>
    rw [hl] at hpf
    simp at hpf
  | some id =>
    simp only [hl] at hpf
    by_cases hid : id = ""
    · rw [if_pos hid] at hpf
      simp at hpf
    · rw [if_neg hid] at hpf
      injection hpf with hpf
      refine ⟨p.1, ?_, ?_⟩
      · rw [← hpf]
        exact hpmem
      · rw [← hpf]
        exact hl

/-- Claim C6: query returns at most min(k, documentCount) results with
pairwise distinct ids, sorted by non-decreasing distance; it returns the
empty sequence when the document count is zero, and every result arises
from a backend slot that is still mapped (slots whose id is no longer
mapped are dropped). -/
theorem semQuery_spec (s : SemState) (k : Nat) (res : List (Nat × ℚ))
    (hinv : SemanticIndex.Inv s)
    (hlen : res.length ≤ min k s.idToIndex.length)
    (hnodup : (res.map Prod.fst).Nodup)
    (hsorted : List.Sorted (· ≤ ·) (res.map Prod.snd)) :
    (SemanticIndex.query s k res).length ≤ min k s.idToIndex.length ∧
    ((SemanticIndex.query s k res).map Prod.fst).Nodup ∧
    List.Sorted (· ≤ ·) ((SemanticIndex.query s k res).map Prod.snd) ∧
    (s.idToIndex.length = 0 → SemanticIndex.query s k res = []) ∧
    (∀ q ∈ SemanticIndex.query s k res,
      ∃ slot, (slot, q.2) ∈ res ∧ alookup s.indexToId slot = some q.1) := by
  by_cases h0 : Nat.min k s.idToIndex.length = 0
  · have hq : SemanticIndex.query s k res = [] := by
      unfold SemanticIndex.query
      rw [if_pos h0]
    rw [hq]
    refine ⟨by simp, by simp, by simp, fun _ => rfl, by simp⟩
  · have hq : SemanticIndex.query s k res = res.filterMap fun p =>
        match alookup s.indexToId p.1 with
        | some id => if id = "" then none else some (id, p.2)
        | none => none := by
      unfold SemanticIndex.query
      rw [if_neg h0]
    rw [hq]
    refine ⟨le_trans (List.length_filterMap_le _ _) hlen,
      query_aux_fst s hinv.2.1 res hnodup,
      List.Pairwise.sublist (query_aux_snd s res) hsorted,
      ?_, query_aux_mem s res⟩
    intro hzero
    rw [hzero] at h0
    simp at h0

/-- Witness for C6 at a concrete one-document state. -/
theorem semQuery_spec_witness :
    (SemanticIndex.query ⟨[("abc123", 0)], [(0, "abc123")], 1, [], 10⟩ 1
        [(0, (1 : ℚ) / 2)]).length ≤
      min 1 ([("abc123", (0 : Nat))].length) ∧
    ∀ q ∈ SemanticIndex.query ⟨[("abc123", 0)], [(0, "abc123")], 1, [], 10⟩ 1
        [(0, (1 : ℚ) / 2)],
      ∃ slot, (slot, q.2) ∈ [(0, (1 : ℚ) / 2)] ∧
        alookup [((0 : Nat), "abc123")] slot = some q.1 := by
  have h := semQuery_spec ⟨[("abc123", 0)], [(0, "abc123")], 1, [], 10⟩ 1
    [(0, (1 : ℚ) / 2)]
    ⟨⟨by decide, by decide, by decide⟩,
      inverse_of_mem (by decide) (by decide),
      by decide,
      bound_of_mem (by decide),
      by decide⟩
    (by decide) (by decide) (by simp)
  exact ⟨h.1, h.2.2.2.2⟩

/-- Counterexample to C5 as stated: after freeing slot 2 and then slot 1,
the next addDocument allocates slot 2 (the oldest-freed), even though the
smaller slot 1 is also free. -/
theorem addDocument_not_smallest_counterexample :
    ((SemanticIndex.removeDocument "bbbbbb"
        ((SemanticIndex.removeDocument "cccccc"
          ((SemanticIndex.addDocument "cccccc" "t"
            ((SemanticIndex.addDocument "bbbbbb" "t"
              ((SemanticIndex.addDocument "aaaaaa" "t"
                (⟨[], [], 0, [], 10⟩ : SemState)).2)).2)).2)).2)).2).deletedIndices = [2, 1] ∧
    alookup ((SemanticIndex.addDocument "dddddd" "t"
      ((SemanticIndex.removeDocument "bbbbbb"
        ((SemanticIndex.removeDocument "cccccc"
          ((SemanticIndex.addDocument "cccccc" "t"
            ((SemanticIndex.addDocument "bbbbbb" "t"
              ((SemanticIndex.addDocument "aaaaaa" "t"
                (⟨[], [], 0, [], 10⟩ : SemState)).2)).2)).2)).2)).2)).2).idToIndex
      "dddddd" = some 2 ∧
    1 ∈ ((SemanticIndex.removeDocument "bbbbbb"
        ((SemanticIndex.removeDocument "cccccc"
          ((SemanticIndex.addDocument "cccccc" "t"
            ((SemanticIndex.addDocument "bbbbbb" "t"
              ((SemanticIndex.addDocument "aaaaaa" "t"
                (⟨[], [], 0, [], 10⟩ : SemState)).2)).2)).2)).2)).2).deletedIndices ∧
    (1 : Nat) < 2 := by
  decide


/-! ## Orchestrator: markObsolete (claim C7) and updateChunk (claim C8) -/

theorem string_nil_append (s : String) : "" ++ s = s := by
  cases s
  rfl

theorem auditAppend_storage (s : MState) (ok : Bool) (line : String) :
    ((MemoryStore.auditAppend s ok line).2).storage = s.storage := by
  cases ok <;> rfl

theorem markObsolete_found (s : MState) (id reason now : String) (auditOk : Bool)
    (c : Chunk) (hc : alookup s.storage id = some c) :
    MemoryStore.markObsolete s id reason now auditOk =
      MemoryStore.auditAppend
        { s with
          storage := aset s.storage id ({ c with
            status := "archived"
            updated := now
            context_notes := some (match c.context_notes with
              | some cn =>
                if cn = "" then "[Obsoleted: " ++ reason ++ "]"
                else cn ++ "\n" ++ ("[Obsoleted: " ++ reason ++ "]")
              | none => "[Obsoleted: " ++ reason ++ "]") }) }
        auditOk (MemoryStore.mkLine now "OBSOLETE" (" " ++ id)) := by
  unfold MemoryStore.markObsolete
  rw [hc]

/-- Claim C7: markObsolete of an absent id fails with ChunkNotFound leaving
all state unchanged; of a present chunk, the stored chunk afterwards has
status archived, its context_notes ends with the obsolete note (with the
previous notes and a newline before it exactly when they were non-empty),
updated is restamped, and every other field is unchanged. -/
theorem markObsolete_spec (s : MState) (id reason now : String) (auditOk : Bool) :
    (alookup s.storage id = none →
      MemoryStore.markObsolete s id reason now auditOk =
        (.error (.chunkNotFound id), s)) ∧
    (∀ c, alookup s.storage id = some c →
      ∃ c',
        alookup ((MemoryStore.markObsolete s id reason now auditOk).2).storage id =
          some c' ∧
        c'.status = "archived" ∧
        (∃ pre, c'.context_notes = some (pre ++ ("[Obsoleted: " ++ reason ++ "]")) ∧
          ((c.context_notes = none ∨ c.context_notes = some "") → pre = "") ∧
          (∀ cn, c.context_notes = some cn → cn ≠ "" → pre = cn ++ "\n")) ∧
        c'.updated = now ∧
        c'.id = c.id ∧ c'.content = c.content ∧ c'.summary = c.summary ∧
        c'.type = c.type ∧ c'.epistemic = c.epistemic ∧
        c'.surface_tags = c.surface_tags ∧ c'.related = c.related ∧
        c'.created = c.created ∧ c'.accessed = c.accessed ∧
        c'.retrieved_count = c.retrieved_count ∧
        c'.relevant_count = c.relevant_count ∧
        c'.last_relevant_date = c.last_relevant_date ∧
        c'.expires = c.expires) := by
  constructor
  · intro h
    unfold MemoryStore.markObsolete
    rw [h]
  · intro c hc
    rw [markObsolete_found s id reason now auditOk c hc]
    refine ⟨{ c with
        status := "archived"
        updated := now
        context_notes := some (match c.context_notes with
          | some cn =>
            if cn = "" then "[Obsoleted: " ++ reason ++ "]"
            else cn ++ "\n" ++ ("[Obsoleted: " ++ reason ++ "]")
          | none => "[Obsoleted: " ++ reason ++ "]") },
      ?_, rfl, ?_, rfl, rfl, rfl, rfl, rfl, rfl, rfl, rfl, rfl, rfl, rfl,
      rfl, rfl, rfl⟩
    · rw [auditAppend_storage]
      exact alookup_aset_self _ _ _
    · cases hcn : c.context_notes with
      | none =>
        refine ⟨"", ?_, fun _ => rfl, ?_⟩
        · simp only [string_nil_append]
        · intro cn h1 _
          exact Option.noConfusion h1
      | some cn =>
        by_cases hemp : cn = ""
        · refine ⟨"", ?_, fun _ => rfl, ?_⟩
          · simp only [if_pos hemp, string_nil_append]
          · intro cn' h1 h2
            injection h1 with h1
            rw [← h1] at h2
            exact absurd hemp h2
        · refine ⟨cn ++ "\n", ?_, ?_, ?_⟩
          · simp only [if_neg hemp]
          · intro h1
            rcases h1 with h1 | h1
            · exact Option.noConfusion h1
            · injection h1 with h1
              exact absurd h1 hemp
          · intro cn' h1 _
            injection h1 with h1
            rw [h1]

/-- Witness for C7 at a concrete stored chunk with non-empty notes. -/
theorem markObsolete_spec_witness :
    ∃ c',
      alookup ((MemoryStore.markObsolete
        ⟨[("abc123",
           { id := "abc123", content := "body", summary := "s", type := "fact",
             epistemic := "working", status := "active", surface_tags := ["t"],
             related := [], created := "T0", updated := "T0", accessed := "T0",
             retrieved_count := 0, relevant_count := 0, last_relevant_date := none,
             expires := none, context_notes := some "old note" })], []⟩
        "abc123" "superseded" "T1" true).2).storage "abc123" = some c' ∧
      c'.status = "archived" ∧
      (∃ pre, c'.context_notes = some (pre ++ ("[Obsoleted: " ++ "superseded" ++ "]"))) := by
  obtain ⟨c', h1, h2, ⟨pre, h3, -, -⟩, -⟩ :=
    (markObsolete_spec
      ⟨[("abc123",
         { id := "abc123", content := "body", summary := "s", type := "fact",
           epistemic := "working", status := "active", surface_tags := ["t"],
           related := [], created := "T0", updated := "T0", accessed := "T0",
           retrieved_count := 0, relevant_count := 0, last_relevant_date := none,
           expires := none, context_notes := some "old note" })], []⟩
      "abc123" "superseded" "T1" true).2 _ rfl
  exact ⟨c', h1, h2, pre, h3⟩

theorem updateChunk_found (s : MState) (id : String) (m : PartialChunk)
    (content? : Option String) (now : String) (auditOk : Bool)
    (c : Chunk) (hc : alookup s.storage id = some c) :
    MemoryStore.updateChunk s id m content? now auditOk =
      MemoryStore.auditAppend
        { s with
          storage := aset s.storage id (match content? with
            | some ct =>
              { MemoryStore.mergeChunk c m with id := id, updated := now, content := ct }
            | none => { MemoryStore.mergeChunk c m with id := id, updated := now }) }
        auditOk (MemoryStore.mkLine now "UPDATE" (" " ++ id)) := by
  unfold MemoryStore.updateChunk
  rw [hc]

/-- Claim C8 (amended): updateChunk of an absent id fails with
ChunkNotFound leaving the state unchanged; of a present chunk, the stored
chunk afterwards reflects the metadata merged over the prior fields, its
id equals the original id even when the metadata carries a different id,
its updated field is set to the operation's clock reading (not necessarily
strictly greater than before), and its content is replaced by the content
argument when given, else by a content field of the metadata when present,
else unchanged. -/
theorem updateChunk_spec (s : MState) (id : String) (m : PartialChunk)
    (content? : Option String) (now : String) (auditOk : Bool) :
    (alookup s.storage id = none →
      MemoryStore.updateChunk s id m content? now auditOk =
        (.error (.chunkNotFound id), s)) ∧
    (∀ c, alookup s.storage id = some c →
      ∃ c',
        alookup ((MemoryStore.updateChunk s id m content? now auditOk).2).storage id =
          some c' ∧
        c'.id = id ∧
        c'.updated = now ∧
        c'.content = (match content? with
          | some ct => ct
          | none => m.content.getD c.content) ∧
        c'.summary = m.summary.getD c.summary ∧
        c'.type = m.type.getD c.type ∧
        c'.epistemic = m.epistemic.getD c.epistemic ∧
        c'.status = m.status.getD c.status ∧
        c'.surface_tags = m.surface_tags.getD c.surface_tags ∧
        c'.related = m.related.getD c.related ∧
        c'.created = m.created.getD c.created ∧
        c'.accessed = m.accessed.getD c.accessed ∧
        c'.retrieved_count = m.retrieved_count.getD c.retrieved_count ∧
        c'.relevant_count = m.relevant_count.getD c.relevant_count ∧
        c'.last_relevant_date = m.last_relevant_date.getD c.last_relevant_date ∧
        c'.expires = m.expires.getD c.expires ∧
        c'.context_notes = m.context_notes.getD c.context_notes) := by
  constructor
  · intro h
    unfold MemoryStore.updateChunk
    rw [h]
  · intro c hc
    rw [updateChunk_found s id m content? now auditOk c hc]
    cases content? with
    | none =>
      refine ⟨{ MemoryStore.mergeChunk c m with id := id, updated := now },
        ?_, rfl, rfl, rfl, rfl, rfl, rfl, rfl, rfl, rfl, rfl, rfl, rfl,
        rfl, rfl, rfl, rfl⟩
      rw [auditAppend_storage]
      exact alookup_aset_self _ _ _
    | some ct =>
      refine ⟨{ MemoryStore.mergeChunk c m with
                id := id
                updated := now
                content := ct },
        ?_, rfl, rfl, rfl, rfl, rfl, rfl, rfl, rfl, rfl, rfl, rfl, rfl,
        rfl, rfl, rfl, rfl⟩
      rw [auditAppend_storage]
      exact alookup_aset_self _ _ _

/-- Witness for C8 at a concrete stored chunk and metadata. -/
theorem updateChunk_spec_witness :
    ∃ c',
      alookup ((MemoryStore.updateChunk
        ⟨[("abc123",
           { id := "abc123", content := "body", summary := "s", type := "fact",
             epistemic := "working", status := "active", surface_tags := ["t"],
             related := [], created := "T0", updated := "T0", accessed := "T0",
             retrieved_count := 0, relevant_count := 0, last_relevant_date := none,
             expires := none, context_notes := none })], []⟩
        "abc123" { summary := some "s2", id := some "zzzzzz" } none "T1" true).2).storage
        "abc123" = some c' ∧
      c'.id = "abc123" ∧ c'.updated = "T1" ∧ c'.summary = "s2" := by
  obtain ⟨c', h1, h2, h3, -, h5, -⟩ :=
    (updateChunk_spec
      ⟨[("abc123",
         { id := "abc123", content := "body", summary := "s", type := "fact",
           epistemic := "working", status := "active", surface_tags := ["t"],
           related := [], created := "T0", updated := "T0", accessed := "T0",
           retrieved_count := 0, relevant_count := 0, last_relevant_date := none,
           expires := none, context_notes := none })], []⟩
      "abc123" { summary := some "s2", id := some "zzzzzz" } none "T1" true).2 _ rfl
  exact ⟨c', h1, h2, h3, h5⟩

/-- Counterexample to C8 as stated: updateChunk with metadata that itself
carries a content field, at a clock reading equal to the previous updated
stamp, replaces the content although no content argument was given, and
leaves updated not strictly greater than before. -/
theorem updateChunk_counterexample :
    alookup ((MemoryStore.updateChunk
      ⟨[("abc123",
         { id := "abc123", content := "old", summary := "s", type := "fact",
           epistemic := "working", status := "active", surface_tags := [],
           related := [], created := "T0", updated := "T0", accessed := "T0",
           retrieved_count := 0, relevant_count := 0, last_relevant_date := none,
           expires := none, context_notes := none })], []⟩
      "abc123" { content := some "new" } none "T0" true).2).storage "abc123" =
      some { id := "abc123", content := "new", summary := "s", type := "fact",
             epistemic := "working", status := "active", surface_tags := [],
             related := [], created := "T0", updated := "T0", accessed := "T0",
             retrieved_count := 0, relevant_count := 0, last_relevant_date := none,
             expires := none, context_notes := none } ∧
    ("new" : String) ≠ "old" ∧
    ("T0" : String) = "T0" := by
  refine ⟨by decide, by decide, rfl⟩


/-! ## Audit-append failure behaviour (claim C1) -/

theorem updateChunk_notFound (s : MState) (id : String) (m : PartialChunk)
    (content? : Option String) (now : String) (auditOk : Bool)
    (h : alookup s.storage id = none) :
    MemoryStore.updateChunk s id m content? now auditOk =
      (.error (.chunkNotFound id), s) := by
  unfold MemoryStore.updateChunk
  rw [h]

theorem markObsolete_notFound (s : MState) (id reason now : String) (auditOk : Bool)
    (h : alookup s.storage id = none) :
    MemoryStore.markObsolete s id reason now auditOk =
      (.error (.chunkNotFound id), s) := by
  unfold MemoryStore.markObsolete
  rw [h]

theorem storeChunk_audit_indep (s : MState) (content : String) (m : PartialChunk)
    (draws : Nat → Nat) (now : String) :
    (MemoryStore.storeChunk s content m draws now false).2.storage =
      (MemoryStore.storeChunk s content m draws now true).2.storage ∧
    ((∃ rid, (MemoryStore.storeChunk s content m draws now true).1 = .ok rid) →
      (MemoryStore.storeChunk s content m draws now false).1 =
        .error .auditAppendFailed) := by
  unfold MemoryStore.storeChunk
  by_cases h1 : m.summary.isNone
  · simp only [if_pos h1]
    refine ⟨by trivial, ?_⟩
    rintro ⟨rid, h⟩
    exact Except.noConfusion h
  · simp only [if_neg h1]
    by_cases h2 : m.type.isNone
    · simp only [if_pos h2]
      refine ⟨by trivial, ?_⟩
      rintro ⟨rid, h⟩
      exact Except.noConfusion h
    · simp only [if_neg h2]
      by_cases h3 : m.epistemic.isNone
      · simp only [if_pos h3]
        refine ⟨by trivial, ?_⟩
        rintro ⟨rid, h⟩
        exact Except.noConfusion h
      · simp only [if_neg h3]
        by_cases h4 : m.surface_tags.isNone
        · simp only [if_pos h4]
          refine ⟨by trivial, ?_⟩
          rintro ⟨rid, h⟩
          exact Except.noConfusion h
        · simp only [if_neg h4]
          cases hgen : generateUniqueId (fun i => (alookup s.storage i).isSome) draws with
          | error e =>
            simp only [hgen]
            refine ⟨by trivial, ?_⟩
            rintro ⟨rid, h⟩
            exact Except.noConfusion h
          | ok newId =>
            simp only [hgen]
            exact ⟨by trivial, fun _ => rfl⟩

theorem updateChunk_audit_indep (s : MState) (id : String) (m : PartialChunk)
    (content? : Option String) (now : String) :
    (MemoryStore.updateChunk s id m content? now false).2.storage =
      (MemoryStore.updateChunk s id m content? now true).2.storage ∧
    ((MemoryStore.updateChunk s id m content? now true).1 = .ok () →
      (MemoryStore.updateChunk s id m content? now false).1 =
        .error .auditAppendFailed) := by
  cases hl : alookup s.storage id with
  | none =>
    rw [updateChunk_notFound s id m content? now false hl,
      updateChunk_notFound s id m content? now true hl]
    exact ⟨rfl, fun h => Except.noConfusion h⟩
  | some c =>
    rw [updateChunk_found s id m content? now false c hl,
      updateChunk_found s id m content? now true c hl]
    exact ⟨rfl, fun _ => rfl⟩

theorem query_audit_indep (s : MState) (resultIds : List String) (now : String) :
    (MemoryStore.query s resultIds now false).2.storage =
      (MemoryStore.query s resultIds now true).2.storage ∧
    (resultIds ≠ [] →
      (MemoryStore.query s resultIds now false).1 = .error .auditAppendFailed) := by
  unfold MemoryStore.query
  by_cases hres : resultIds = []
  · simp only [if_pos hres]
    exact ⟨trivial, fun h => absurd hres h⟩
  · simp only [if_neg hres]
    exact ⟨by trivial, fun _ => rfl⟩

theorem markRelevant_audit_indep (s : MState) (ids : List String) (now : String) :
    (MemoryStore.markRelevant s ids now false).2.storage =
      (MemoryStore.markRelevant s ids now true).2.storage ∧
    (MemoryStore.markRelevant s ids now false).1 = .error .auditAppendFailed :=
  ⟨rfl, rfl⟩

theorem markObsolete_audit_indep (s : MState) (id reason now : String) :
    (MemoryStore.markObsolete s id reason now false).2.storage =
      (MemoryStore.markObsolete s id reason now true).2.storage ∧
    ((MemoryStore.markObsolete s id reason now true).1 = .ok () →
      (MemoryStore.markObsolete s id reason now false).1 =
        .error .auditAppendFailed) := by
  cases hl : alookup s.storage id with
  | none =>
    rw [markObsolete_notFound s id reason now false hl,
      markObsolete_notFound s id reason now true hl]
    exact ⟨rfl, fun h => Except.noConfusion h⟩
  | some c =>
    rw [markObsolete_found s id reason now false c hl,
      markObsolete_found s id reason now true c hl]
    exact ⟨rfl, fun _ => rfl⟩

/-- Claim C1 (amended): for every orchestrator mutation, the chunk state
written to storage does not depend on whether the audit-log append
succeeds — the mutation is committed before the append — but an
audit-append error is NOT swallowed: whenever the operation would have
succeeded, the failing append makes it return the audit error to the
caller instead of success. -/
theorem audit_failure_spec (s : MState) (content : String) (m m2 : PartialChunk)
    (draws : Nat → Nat) (id reason : String) (ids resultIds : List String)
    (content? : Option String) (now : String) :
    ((MemoryStore.storeChunk s content m draws now false).2.storage =
      (MemoryStore.storeChunk s content m draws now true).2.storage) ∧
    ((MemoryStore.updateChunk s id m2 content? now false).2.storage =
      (MemoryStore.updateChunk s id m2 content? now true).2.storage) ∧
    ((MemoryStore.query s resultIds now false).2.storage =
      (MemoryStore.query s resultIds now true).2.storage) ∧
    ((MemoryStore.markRelevant s ids now false).2.storage =
      (MemoryStore.markRelevant s ids now true).2.storage) ∧
    ((MemoryStore.markObsolete s id reason now false).2.storage =
      (MemoryStore.markObsolete s id reason now true).2.storage) ∧
    ((∃ rid, (MemoryStore.storeChunk s content m draws now true).1 = .ok rid) →
      (MemoryStore.storeChunk s content m draws now false).1 =
        .error .auditAppendFailed) ∧
    ((MemoryStore.updateChunk s id m2 content? now true).1 = .ok () →
      (MemoryStore.updateChunk s id m2 content? now false).1 =
        .error .auditAppendFailed) ∧
    (resultIds ≠ [] →
      (MemoryStore.query s resultIds now false).1 = .error .auditAppendFailed) ∧
    ((MemoryStore.markRelevant s ids now false).1 = .error .auditAppendFailed) ∧
    ((MemoryStore.markObsolete s id reason now true).1 = .ok () →
      (MemoryStore.markObsolete s id reason now false).1 =
        .error .auditAppendFailed) :=
  ⟨(storeChunk_audit_indep s content m draws now).1,
    (updateChunk_audit_indep s id m2 content? now).1,
    (query_audit_indep s resultIds now).1,
    (markRelevant_audit_indep s ids now).1,
    (markObsolete_audit_indep s id reason now).1,
    (storeChunk_audit_indep s content m draws now).2,
    (updateChunk_audit_indep s id m2 content? now).2,
    (query_audit_indep s resultIds now).2,
    (markRelevant_audit_indep s ids now).2,
    (markObsolete_audit_indep s id reason now).2⟩

/-- Witness for C1: at a concrete store, a query whose audit append fails
surfaces the audit error. -/
theorem audit_failure_spec_witness :
    (MemoryStore.query ⟨[], []⟩ ["abc123"] "T1" false).1 = .error .auditAppendFailed :=
  (audit_failure_spec ⟨[], []⟩ "c" {} {} (fun _ => 0) "abc123" "r" [] ["abc123"] none
    "T1").2.2.2.2.2.2.2.1 (by simp)

/-- Counterexample to C1 as stated: a markRelevant whose audit append
errors does not return successfully — the error propagates to the caller —
even though the counter increment was already committed to storage. -/
theorem audit_error_counterexample :
    (MemoryStore.markRelevant
      ⟨[("abc123",
         { id := "abc123", content := "body", summary := "s", type := "fact",
           epistemic := "working", status := "active", surface_tags := [],
           related := [], created := "T0", updated := "T0", accessed := "T0",
           retrieved_count := 0, relevant_count := 0, last_relevant_date := none,
           expires := none, context_notes := none })], []⟩
      ["abc123"] "T1" false).1 = .error .auditAppendFailed ∧
    alookup ((MemoryStore.markRelevant
      ⟨[("abc123",
         { id := "abc123", content := "body", summary := "s", type := "fact",
           epistemic := "working", status := "active", surface_tags := [],
           related := [], created := "T0", updated := "T0", accessed := "T0",
           retrieved_count := 0, relevant_count := 0, last_relevant_date := none,
           expires := none, context_notes := none })], []⟩
      ["abc123"] "T1" false).2).storage "abc123" =
      some { id := "abc123", content := "body", summary := "s", type := "fact",
             epistemic := "working", status := "active", surface_tags := [],
             related := [], created := "T0", updated := "T0", accessed := "T0",
             retrieved_count := 0, relevant_count := 1,
             last_relevant_date := some "T1",
             expires := none, context_notes := none } :=
  ⟨rfl, by decide⟩


/-! ## Counter monotonicity (claim C2) -/

theorem countersLe_refl (c : Chunk) : CountersLe c c := ⟨le_refl _, le_refl _⟩

theorem countersLe_trans {a b c : Chunk} (h1 : CountersLe a b) (h2 : CountersLe b c) :
    CountersLe a c :=
  ⟨le_trans h1.1 h2.1, le_trans h1.2 h2.2⟩

theorem stepOk_refl (l : List (String × Chunk)) : StepOk l l := by
  refine ⟨?_, ?_⟩
  · intro id c c' h1 h2
    rw [h1] at h2
    injection h2 with h2
    rw [← h2]
    exact countersLe_refl c
  · intro id c h
    exact ⟨c, h⟩

theorem stepOk_trans {l1 l2 l3 : List (String × Chunk)}
    (h12 : StepOk l1 l2) (h23 : StepOk l2 l3) : StepOk l1 l3 := by
  refine ⟨?_, ?_⟩
  · intro id c c'' h1 h3
    obtain ⟨c', h2⟩ := h12.2 id c h1
    exact countersLe_trans (h12.1 id c c' h1 h2) (h23.1 id c' c'' h2 h3)
  · intro id c h1
    obtain ⟨c', h2⟩ := h12.2 id c h1
    exact h23.2 id c' h2

theorem stepOk_aset_new (l : List (String × Chunk)) (k : String) (c : Chunk)
    (h : alookup l k = none) : StepOk l (aset l k c) := by
  refine ⟨?_, ?_⟩
  · intro id d d' h1 h2
    by_cases hid : id = k
    · rw [hid, h] at h1
      exact Option.noConfusion h1
    · rw [alookup_aset_ne _ _ _ _ hid] at h2
      rw [h1] at h2
      injection h2 with h2
      rw [← h2]
      exact countersLe_refl d
  · intro id d h1
    by_cases hid : id = k
    · rw [hid, alookup_aset_self]
      exact ⟨c, rfl⟩
    · rw [alookup_aset_ne _ _ _ _ hid]
      exact ⟨d, h1⟩

theorem keysOkL_aset (l : List (String × Chunk)) (k : String) (c : Chunk)
    (hk : KeysOkL l) (hc : c.id = k) : KeysOkL (aset l k c) := by
  intro id d hd
  by_cases h : id = k
  · rw [h, alookup_aset_self] at hd
    injection hd with hd
    rw [← hd, hc, h]
  · rw [alookup_aset_ne _ _ _ _ h] at hd
    exact hk id d hd

theorem foldQuery_stepOk (base : List (String × Chunk)) (now : String) :
    ∀ (chunks : List Chunk) (st : List (String × Chunk)),
      (∀ c ∈ chunks, alookup base c.id = some c) → StepOk base st →
      StepOk base (chunks.foldl
        (fun st c => aset st c.id
          { c with retrieved_count := c.retrieved_count + 1, accessed := now })
        st) := by
  intro chunks
  induction chunks with
  | nil => exact fun st _ h => h
  | cons c t ih =>
    intro st hc hst
    rw [List.foldl_cons]
    refine ih _ (fun d hd => hc d (List.mem_cons_of_mem _ hd)) ⟨?_, ?_⟩
    · intro id d d' h1 h2
      by_cases hid : id = c.id
      · rw [hid, alookup_aset_self] at h2
        injection h2 with h2
        have hcc := hc c (List.mem_cons_self _ _)
        rw [hid, hcc] at h1
        injection h1 with h1
        rw [← h2, ← h1]
        exact ⟨Nat.le_succ _, le_refl _⟩
      · rw [alookup_aset_ne _ _ _ _ hid] at h2
        exact hst.1 id d d' h1 h2
    · intro id d h1
      by_cases hid : id = c.id
      · rw [hid, alookup_aset_self]
        exact ⟨_, rfl⟩
      · rw [alookup_aset_ne _ _ _ _ hid]
        exact hst.2 id d h1

theorem keysOkL_foldQuery (now : String) :
    ∀ (chunks : List Chunk) (st : List (String × Chunk)), KeysOkL st →
      KeysOkL (chunks.foldl
        (fun st c => aset st c.id
          { c with retrieved_count := c.retrieved_count + 1, accessed := now })
        st) := by
  intro chunks
  induction chunks with
  | nil => exact fun st h => h
  | cons c t ih =>
    intro st hk
    rw [List.foldl_cons]
    exact ih _ (keysOkL_aset _ _ _ hk rfl)

theorem foldRel_stepOk (base : List (String × Chunk)) (now : String) :
    ∀ (ids : List String) (st : List (String × Chunk)), StepOk base st →
      StepOk base (ids.foldl
        (fun st id =>
          match alookup st id with
          | some c =>
            aset st id { c with relevant_count := c.relevant_count + 1,
                                last_relevant_date := some now }
          | none => st)
        st) := by
  intro ids
  induction ids with
  | nil => exact fun st h => h
  | cons id0 t ih =>
    intro st hst
    rw [List.foldl_cons]
    cases hl : alookup st id0 with
    | none =>
      refine ih _ ?_
      simp only [hl]
      exact hst
    | some c0 =>
      refine ih _ ?_
      simp only [hl]
      refine ⟨?_, ?_⟩
      · intro id d d' h1 h2
        by_cases hid : id = id0
        · rw [hid, alookup_aset_self] at h2
          injection h2 with h2
          have hdc0 := hst.1 id d c0 h1 (by rw [hid]; exact hl)
          rw [← h2]
          exact countersLe_trans hdc0 ⟨le_refl _, Nat.le_succ _⟩
        · rw [alookup_aset_ne _ _ _ _ hid] at h2
          exact hst.1 id d d' h1 h2
      · intro id d h1
        by_cases hid : id = id0
        · rw [hid, alookup_aset_self]
          exact ⟨_, rfl⟩
        · rw [alookup_aset_ne _ _ _ _ hid]
          exact hst.2 id d h1

theorem keysOkL_foldRel (now : String) :
    ∀ (ids : List String) (st : List (String × Chunk)), KeysOkL st →
      KeysOkL (ids.foldl
        (fun st id =>
          match alookup st id with
          | some c =>
            aset st id { c with relevant_count := c.relevant_count + 1,
                                last_relevant_date := some now }
          | none => st)
        st) := by
  intro ids
  induction ids with
  | nil => exact fun st h => h
  | cons id0 t ih =>
    intro st hk
    rw [List.foldl_cons]
    cases hl : alookup st id0 with
    | none =>
      refine ih _ ?_
      simp only [hl]
      exact hk
    | some c0 =>
      refine ih _ ?_
      simp only [hl]
      exact keysOkL_aset _ _ _ hk (hk id0 c0 hl)

theorem generateUniqueId_fresh (l : List (String × Chunk)) (draws : Nat → Nat)
    (id : String)
    (h : generateUniqueId (fun i => (alookup l i).isSome) draws = .ok id) :
    alookup l id = none := by
  have h2 := (genLoop_ok _ _ 100 0 id h).1
  cases hl : alookup l id with
  | none => rfl
  | some c =>
    rw [hl] at h2
    simp at h2

theorem storeChunk_storage_shape (s : MState) (content : String) (m : PartialChunk)
    (draws : Nat → Nat) (now : String) (auditOk : Bool) :
    (MemoryStore.storeChunk s content m draws now auditOk).2.storage = s.storage ∨
    ∃ newId c, c.id = newId ∧ alookup s.storage newId = none ∧
      (MemoryStore.storeChunk s content m draws now auditOk).2.storage =
        aset s.storage newId c := by
  unfold MemoryStore.storeChunk
  by_cases h1 : m.summary.isNone
  · simp only [if_pos h1]
    exact Or.inl trivial
  · simp only [if_neg h1]
    by_cases h2 : m.type.isNone
    · simp only [if_pos h2]
      exact Or.inl trivial
    · simp only [if_neg h2]
      by_cases h3 : m.epistemic.isNone
      · simp only [if_pos h3]
        exact Or.inl trivial
      · simp only [if_neg h3]
        by_cases h4 : m.surface_tags.isNone
        · simp only [if_pos h4]
          exact Or.inl trivial
        · simp only [if_neg h4]
          cases hgen : generateUniqueId (fun i => (alookup s.storage i).isSome) draws with
          | error e =>
            simp only [hgen]
            exact Or.inl trivial
          | ok newId =>
            simp only [hgen]
            refine Or.inr ⟨newId,
              { id := newId, content := content, summary := m.summary.getD "",
                type := m.type.getD "", epistemic := m.epistemic.getD "",
                status := m.status.getD "active",
                surface_tags := m.surface_tags.getD [],
                related := m.related.getD [], created := m.created.getD now,
                updated := m.updated.getD now, accessed := m.accessed.getD now,
                retrieved_count := m.retrieved_count.getD 0,
                relevant_count := m.relevant_count.getD 0,
                last_relevant_date := m.last_relevant_date.getD none,
                expires := m.expires.getD none,
                context_notes := m.context_notes.getD none },
              rfl, generateUniqueId_fresh s.storage draws newId hgen, ?_⟩
            cases auditOk <;> rfl


theorem stepOk_aset_upd (l : List (String × Chunk)) (k : String) (c c' : Chunk)
    (h : alookup l k = some c) (hle : CountersLe c c') : StepOk l (aset l k c') := by
  refine ⟨?_, ?_⟩
  · intro id d d' h1 h2
    by_cases hid : id = k
    · rw [hid, alookup_aset_self] at h2
      injection h2 with h2
      rw [hid, h] at h1
      injection h1 with h1
      rw [← h2, ← h1]
      exact hle
    · rw [alookup_aset_ne _ _ _ _ hid] at h2
      rw [h1] at h2
      injection h2 with h2
      rw [← h2]
      exact countersLe_refl d
  · intro id d h1
    by_cases hid : id = k
    · rw [hid, alookup_aset_self]
      exact ⟨c', rfl⟩
    · rw [alookup_aset_ne _ _ _ _ hid]
      exact ⟨d, h1⟩

theorem applyOp_stepOk (op : Op) (s : MState) (hk : KeysOkL s.storage)
    (hc : op.countersUntouched) :
    StepOk s.storage ((applyOp s op).storage) ∧ KeysOkL ((applyOp s op).storage) := by
  cases op with
  | store content m draws now auditOk =>
    show StepOk s.storage ((MemoryStore.storeChunk s content m draws now auditOk).2).storage ∧
      KeysOkL ((MemoryStore.storeChunk s content m draws now auditOk).2).storage
    rcases storeChunk_storage_shape s content m draws now auditOk with
      h | ⟨newId, c, hcid, hfresh, h⟩
    · rw [h]
      exact ⟨stepOk_refl _, hk⟩
    · rw [h]
      exact ⟨stepOk_aset_new _ _ _ hfresh, keysOkL_aset _ _ _ hk hcid⟩
  | update id m content? now auditOk =>
    obtain ⟨hm1, hm2⟩ := hc
    show StepOk s.storage ((MemoryStore.updateChunk s id m content? now auditOk).2).storage ∧
      KeysOkL ((MemoryStore.updateChunk s id m content? now auditOk).2).storage
    cases hl : alookup s.storage id with
    | none =>
      rw [updateChunk_notFound s id m content? now auditOk hl]
      exact ⟨stepOk_refl _, hk⟩
    | some c =>
      rw [updateChunk_found s id m content? now auditOk c hl, auditAppend_storage]
      cases content? with
      | none =>
        have hcle : CountersLe c { MemoryStore.mergeChunk c m with id := id, updated := now } := by
          constructor
          · show c.retrieved_count ≤ m.retrieved_count.getD c.retrieved_count
            rw [hm1]
            exact le_refl _
          · show c.relevant_count ≤ m.relevant_count.getD c.relevant_count
            rw [hm2]
            exact le_refl _
        exact ⟨stepOk_aset_upd _ _ _ _ hl hcle, keysOkL_aset _ _ _ hk rfl⟩
      | some ct =>
        have hcle : CountersLe c { MemoryStore.mergeChunk c m with
            id := id, updated := now, content := ct } := by
          constructor
          · show c.retrieved_count ≤ m.retrieved_count.getD c.retrieved_count
            rw [hm1]
            exact le_refl _
          · show c.relevant_count ≤ m.relevant_count.getD c.relevant_count
            rw [hm2]
            exact le_refl _
        exact ⟨stepOk_aset_upd _ _ _ _ hl hcle, keysOkL_aset _ _ _ hk rfl⟩
  | queryOp resultIds now auditOk =>
    show StepOk s.storage ((MemoryStore.query s resultIds now auditOk).2).storage ∧
      KeysOkL ((MemoryStore.query s resultIds now auditOk).2).storage
    unfold MemoryStore.query
    by_cases hres : resultIds = []
    · simp only [if_pos hres]
      exact ⟨stepOk_refl _, hk⟩
    · simp only [if_neg hres]
      have hmem : ∀ c ∈ MemoryStore.readMany s.storage resultIds,
          alookup s.storage c.id = some c := by
        intro c hcm
        obtain ⟨i, hi, hlk⟩ := List.mem_filterMap.1 hcm
        rw [hk i c hlk]
        exact hlk
      have hfold := foldQuery_stepOk s.storage now
        (MemoryStore.readMany s.storage resultIds) s.storage hmem (stepOk_refl _)
      have hkf := keysOkL_foldQuery now
        (MemoryStore.readMany s.storage resultIds) s.storage hk
      cases auditOk
      · exact ⟨hfold, hkf⟩
      · exact ⟨hfold, hkf⟩
  | markRel ids now auditOk =>
    show StepOk s.storage ((MemoryStore.markRelevant s ids now auditOk).2).storage ∧
      KeysOkL ((MemoryStore.markRelevant s ids now auditOk).2).storage
    have h1 := foldRel_stepOk s.storage now ids s.storage (stepOk_refl _)
    have h2 := keysOkL_foldRel now ids s.storage hk
    unfold MemoryStore.markRelevant
    rw [auditAppend_storage]
    exact ⟨h1, h2⟩
  | markObs id reason now auditOk =>
    show StepOk s.storage ((MemoryStore.markObsolete s id reason now auditOk).2).storage ∧
      KeysOkL ((MemoryStore.markObsolete s id reason now auditOk).2).storage
    cases hl : alookup s.storage id with
    | none =>
      rw [markObsolete_notFound s id reason now auditOk hl]
      exact ⟨stepOk_refl _, hk⟩
    | some c =>
      rw [markObsolete_found s id reason now auditOk c hl, auditAppend_storage]
      exact ⟨stepOk_aset_upd _ _ _ _ hl ⟨le_refl _, le_refl _⟩,
        keysOkL_aset _ _ _ hk (hk id c hl)⟩

theorem runOps_append (s : MState) (l1 l2 : List Op) :
    runOps s (l1 ++ l2) = runOps (runOps s l1) l2 := by
  induction l1 generalizing s with
  | nil => rfl
  | cons op t ih =>
    rw [List.cons_append]
    show runOps (applyOp s op) (t ++ l2) = _
    rw [ih]
    rfl

theorem runOps_stepOk (ops : List Op) : ∀ (s : MState), KeysOkL s.storage →
    (∀ op ∈ ops, op.countersUntouched) →
    StepOk s.storage (runOps s ops).storage ∧ KeysOkL (runOps s ops).storage := by
  induction ops with
  | nil => exact fun s hk _ => ⟨stepOk_refl _, hk⟩
  | cons op t ih =>
    intro s hk hops
    have h1 := applyOp_stepOk op s hk (hops op (List.mem_cons_self _ _))
    have h2 := ih (applyOp s op) h1.2 (fun o ho => hops o (List.mem_cons_of_mem _ ho))
    exact ⟨stepOk_trans h1.1 h2.1, h2.2⟩

/-- Claim C2 (amended): over every sequence of orchestrator operations
from the empty store, the retrieved and relevant counters of each stored
chunk are monotonically non-decreasing — provided no updateChunk carries a
counter field in its metadata; an updateChunk whose metadata sets a
counter can lower it (see the counterexample). -/
theorem counters_monotone (ops1 ops2 : List Op)
    (hops : ∀ op ∈ ops1 ++ ops2, op.countersUntouched)
    (id : String) (c c' : Chunk)
    (h1 : alookup (runOps emptyMState ops1).storage id = some c)
    (h2 : alookup (runOps emptyMState (ops1 ++ ops2)).storage id = some c') :
    c.retrieved_count ≤ c'.retrieved_count ∧
      c.relevant_count ≤ c'.relevant_count := by
  have hk0 : KeysOkL emptyMState.storage := by
    intro i d hd
    simp [emptyMState, alookup] at hd
  have hmid := runOps_stepOk ops1 emptyMState hk0
    (fun o ho => hops o (List.mem_append.2 (Or.inl ho)))
  have hend := runOps_stepOk ops2 (runOps emptyMState ops1) hmid.2
    (fun o ho => hops o (List.mem_append.2 (Or.inr ho)))
  rw [runOps_append] at h2
  exact hend.1.1 id c c' h1 h2

/-- Witness for C2: a stored chunk keeps non-decreasing counters across a
markRelevant. -/
theorem counters_monotone_witness :
    ({ id := "000000", content := "hello", summary := "greet", type := "fact",
       epistemic := "established", status := "active", surface_tags := ["hello"],
       related := [], created := "T0", updated := "T0", accessed := "T0",
       retrieved_count := 0, relevant_count := 0, last_relevant_date := none,
       expires := none, context_notes := none } : Chunk).retrieved_count ≤
      ({ id := "000000", content := "hello", summary := "greet", type := "fact",
         epistemic := "established", status := "active", surface_tags := ["hello"],
         related := [], created := "T0", updated := "T0", accessed := "T0",
         retrieved_count := 0, relevant_count := 1,
         last_relevant_date := some "T1",
         expires := none, context_notes := none } : Chunk).retrieved_count ∧
    ({ id := "000000", content := "hello", summary := "greet", type := "fact",
       epistemic := "established", status := "active", surface_tags := ["hello"],
       related := [], created := "T0", updated := "T0", accessed := "T0",
       retrieved_count := 0, relevant_count := 0, last_relevant_date := none,
       expires := none, context_notes := none } : Chunk).relevant_count ≤
      ({ id := "000000", content := "hello", summary := "greet", type := "fact",
         epistemic := "established", status := "active", surface_tags := ["hello"],
         related := [], created := "T0", updated := "T0", accessed := "T0",
         retrieved_count := 0, relevant_count := 1,
         last_relevant_date := some "T1",
         expires := none, context_notes := none } : Chunk).relevant_count := by
  have h := counters_monotone
    [Op.store "hello"
      { summary := some "greet", type := some "fact",
        epistemic := some "established", surface_tags := some ["hello"] }
      (fun _ => 0) "T0" true]
    [Op.markRel ["000000"] "T1" true]
    (by
      intro op hop
      simp only [List.cons_append, List.nil_append, List.mem_cons,
        List.not_mem_nil, or_false] at hop
      rcases hop with rfl | rfl
      · exact trivial
      · exact trivial)
    "000000"
    { id := "000000", content := "hello", summary := "greet", type := "fact",
      epistemic := "established", status := "active", surface_tags := ["hello"],
      related := [], created := "T0", updated := "T0", accessed := "T0",
      retrieved_count := 0, relevant_count := 0, last_relevant_date := none,
      expires := none, context_notes := none }
    { id := "000000", content := "hello", summary := "greet", type := "fact",
      epistemic := "established", status := "active", surface_tags := ["hello"],
      related := [], created := "T0", updated := "T0", accessed := "T0",
      retrieved_count := 0, relevant_count := 1,
      last_relevant_date := some "T1",
      expires := none, context_notes := none }
    (by decide) (by decide)
  exact h

/-- Counterexample to C2 as stated: an updateChunk whose metadata sets
relevant_count to 0 lowers the counter from 1 back to 0. -/
theorem counters_monotone_counterexample :
    (alookup (runOps emptyMState
      [Op.store "hello"
        { summary := some "greet", type := some "fact",
          epistemic := some "established", surface_tags := some ["hello"] }
        (fun _ => 0) "T0" true,
       Op.markRel ["000000"] "T1" true]).storage "000000").map
      (fun c => c.relevant_count) = some 1 ∧
    (alookup (runOps emptyMState
      [Op.store "hello"
        { summary := some "greet", type := some "fact",
          epistemic := some "established", surface_tags := some ["hello"] }
        (fun _ => 0) "T0" true,
       Op.markRel ["000000"] "T1" true,
       Op.update "000000" { relevant_count := some 0 } none "T2" true]).storage
      "000000").map (fun c => c.relevant_count) = some 0 ∧
    (0 : Nat) < 1 := by
  refine ⟨by decide, by decide, by decide⟩

/-! ## Codec line lemmas (C3) -/

theorem mk_data (s : String) : String.mk s.data = s := rfl

theorem splitNL_ne_nil (l : List Char) : splitNL l ≠ [] := by
  cases l with
  | nil => simp [splitNL]
  | cons c rest =>
    simp only [splitNL]
    split
    · simp
    · split <;> simp

theorem splitNL_cons_line (p rest : List Char) (h : '\n' ∉ p) :
    splitNL (p ++ '\n' :: rest) = p :: splitNL rest := by
  induction p with
  | nil => simp [splitNL]
  | cons c p ih =>
    have hc : c ≠ '\n' := fun hh => h (by simp [hh])
    have hp : '\n' ∉ p := fun hh => h (by simp [hh])
    rw [List.cons_append]
    simp only [splitNL, if_neg hc, ih hp]

theorem splitNL_parts (p : List Char) (ps : List (List Char)) (rest : List Char)
    (h : ∀ q ∈ p :: ps, '\n' ∉ q) :
    splitNL (joinLines (p :: ps) ++ '\n' :: rest) = p :: (ps ++ splitNL rest) := by
  induction ps generalizing p with
  | nil =>
    show splitNL (p ++ '\n' :: rest) = p :: ([] ++ splitNL rest)
    rw [splitNL_cons_line p rest (h p (by simp)), List.nil_append]
  | cons q qs ih =>
    have hshape : joinLines (p :: q :: qs) ++ '\n' :: rest
        = p ++ '\n' :: (joinLines (q :: qs) ++ '\n' :: rest) := by
      show (p ++ '\n' :: joinLines (q :: qs)) ++ '\n' :: rest = _
      simp [List.append_assoc]
    rw [hshape, splitNL_cons_line p _ (h p (by simp)),
        ih q (fun x hx => h x (List.mem_cons_of_mem p hx))]
    rfl

theorem joinLines_cons_cons (c : Char) (h : List Char) (t : List (List Char)) :
    joinLines ((c :: h) :: t) = c :: joinLines (h :: t) := by
  cases t with
  | nil => rfl
  | cons x xt => rfl

theorem joinLines_splitNL (l : List Char) : joinLines (splitNL l) = l := by
  induction l with
  | nil => rfl
  | cons c rest ih =>
    by_cases hc : c = '\n'
    · subst hc
      have hsp : splitNL ('\n' :: rest) = [] :: splitNL rest := by simp [splitNL]
      rw [hsp]
      cases hr : splitNL rest with
      | nil => exact absurd hr (splitNL_ne_nil rest)
      | cons x xt =>
        show [] ++ '\n' :: joinLines (x :: xt) = '\n' :: rest
        rw [List.nil_append, ← hr, ih]
    · have hsp : splitNL (c :: rest) =
          match splitNL rest with
          | [] => [[c]]
          | h :: t => (c :: h) :: t := by
        simp [splitNL, hc]
      rw [hsp]
      cases hr : splitNL rest with
      | nil => exact absurd hr (splitNL_ne_nil rest)
      | cons x xt =>
        rw [joinLines_cons_cons, ← hr, ih]

theorem trimChars_cons_nl (l : List Char) : trimChars ('\n' :: l) = trimChars l := by
  have hw : isWS '\n' = true := rfl
  simp [trimChars, List.dropWhile_cons, hw]

theorem hasPair_sep (k v : List Char) : hasPair ':' ' ' (k ++ ':' :: ' ' :: v) = true := by
  induction k with
  | nil => simp [hasPair]
  | cons c k ih => simp [hasPair, ih]

theorem ne_of_hasPair (a b : Char) (l1 l2 : List Char)
    (h1 : hasPair a b l1 = true) (h2 : hasPair a b l2 = false) : l1 ≠ l2 := by
  intro he
  rw [he, h2] at h1
  cases h1

theorem kvL_ne_noCS (k : String) (v l : List Char) (h : hasPair ':' ' ' l = false) :
    kvL k v ≠ l :=
  ne_of_hasPair ':' ' ' _ _ (hasPair_sep k.data v) h

theorem splitKV_key (k v : List Char) (hk : ':' ∉ k) :
    splitKV (k ++ ':' :: ' ' :: v) = some (k, v) := by
  induction k with
  | nil =>
    show splitKV (':' :: ' ' :: v) = some ([], v)
    simp [splitKV]
  | cons c k ih =>
    have hc : c ≠ ':' := fun hh => hk (by simp [hh])
    have hk' : ':' ∉ k := fun hh => hk (by simp [hh])
    show splitKV (c :: (k ++ ':' :: ' ' :: v)) = some (c :: k, v)
    simp only [splitKV]
    rw [if_neg (fun hcc => hc hcc.1), ih hk']
    rfl

theorem splitKV_prepend (p l : List Char) (hp : ':' ∉ p) :
    splitKV (p ++ l) = (splitKV l).map fun q => (p ++ q.1, q.2) := by
  induction p with
  | nil =>
    rw [List.nil_append]
    cases splitKV l <;> simp
  | cons c p ih =>
    have hc : c ≠ ':' := fun hh => hp (by simp [hh])
    have hp' : ':' ∉ p := fun hh => hp (by simp [hh])
    show splitKV (c :: (p ++ l)) = _
    simp only [splitKV]
    rw [if_neg (fun hcc => hc hcc.1), ih hp']
    cases splitKV l <;> simp

theorem splitKV_none_of_noCS (l : List Char) (h : hasPair ':' ' ' l = false) :
    splitKV l = none := by
  induction l with
  | nil => rfl
  | cons c rest ih =>
    simp only [hasPair, Bool.or_eq_false_iff] at h
    obtain ⟨h1, h2⟩ := h
    simp only [splitKV]
    rw [if_neg, ih h2]
    · rfl
    · rintro ⟨e1, e2⟩
      rw [e1, e2] at h1
      simp at h1

theorem plainOk_props (s : String) (h : plainOk s = true) :
    '\n' ∉ s.data ∧ hasPair ':' ' ' s.data = false ∧ s ≠ "null" := by
  unfold plainOk at h
  cases hd : s.data with
  | nil => rw [hd] at h; cases h
  | cons c rest =>
    rw [hd] at h
    simp only [Bool.and_eq_true, Bool.not_eq_true'] at h
    refine ⟨?_, ?_, ?_⟩
    · intro hm
      have hc := h.1.1.1.1.1.1.1.1.1.1.2
      simp at hc
      rcases List.mem_cons.mp hm with h1 | h1
      · exact hc.1 h1
      · exact hc.2 h1
    · exact h.1.1.1.1.1.1.1.1.2
    · intro he
      have := h.1.1.1.1.2
      simp [he] at this

theorem digitChar_range (d : Nat) (h : d < 10) :
    48 ≤ (digitChar d).toNat ∧ (digitChar d).toNat ≤ 57 := by
  interval_cases d <;> decide

theorem natDigitsF_digits :
    ∀ fuel n, ∀ c ∈ natDigitsF fuel n, 48 ≤ c.toNat ∧ c.toNat ≤ 57 := by
  intro fuel
  induction fuel with
  | zero => intro n c hc; cases hc
  | succ fuel ih =>
    intro n c hc
    by_cases h10 : n < 10
    · simp only [natDigitsF, if_pos h10, List.mem_singleton] at hc
      rw [hc]
      exact digitChar_range n h10
    · simp only [natDigitsF, if_neg h10, List.mem_append, List.mem_singleton] at hc
      rcases hc with hc | hc
      · exact ih (n / 10) c hc
      · rw [hc]
        exact digitChar_range (n % 10) (Nat.mod_lt n (by norm_num))

theorem natDigits_noNL (n : Nat) : '\n' ∉ natDigits n := by
  intro hm
  have := natDigitsF_digits (n + 1) n '\n' hm
  have h10 : ('\n').toNat = 10 := rfl
  omega

theorem parseNatAux_append (l1 l2 : List Char) (acc : Nat) :
    parseNatAux (l1 ++ l2) acc =
      match parseNatAux l1 acc with
      | some a => parseNatAux l2 a
      | none => none := by
  induction l1 generalizing acc with
  | nil => rfl
  | cons c rest ih =>
    show parseNatAux (c :: (rest ++ l2)) acc = _
    by_cases h : 48 ≤ c.toNat ∧ c.toNat ≤ 57
    · simp only [parseNatAux, if_pos h, ih]
    · simp only [parseNatAux, if_neg h]

theorem parseNatAux_digit (d acc : Nat) (h : d < 10) :
    parseNatAux [digitChar d] acc = some (acc * 10 + d) := by
  interval_cases d <;> rfl

theorem natDigitsF_parse :
    ∀ fuel n acc, n < fuel →
      parseNatAux (natDigitsF fuel n) acc =
        some (acc * 10 ^ (natDigitsF fuel n).length + n) := by
  intro fuel
  induction fuel with
  | zero => intro n acc h; exact absurd h (Nat.not_lt_zero n)
  | succ fuel ih =>
    intro n acc h
    by_cases h10 : n < 10
    · simp only [natDigitsF, if_pos h10]
      rw [parseNatAux_digit n acc h10]
      simp
    · simp only [natDigitsF, if_neg h10]
      have hdivn : n / 10 < n := Nat.div_lt_self (by omega) (by norm_num)
      have hdiv : n / 10 < fuel := by omega
      rw [parseNatAux_append, ih (n / 10) acc hdiv]
      show parseNatAux [digitChar (n % 10)]
          (acc * 10 ^ (natDigitsF fuel (n / 10)).length + n / 10) = _
      rw [parseNatAux_digit _ _ (Nat.mod_lt n (by norm_num))]
      have hlen : (natDigitsF fuel (n / 10) ++ [digitChar (n % 10)]).length
          = (natDigitsF fuel (n / 10)).length + 1 := by simp
      rw [hlen, pow_succ]
      congr 1
      have heq : (acc * 10 ^ (natDigitsF fuel (n / 10)).length + n / 10) * 10 + n % 10
          = acc * (10 ^ (natDigitsF fuel (n / 10)).length * 10) + (n / 10 * 10 + n % 10) := by
        ring
      rw [heq]
      have hmod : n / 10 * 10 + n % 10 = n := by omega
      rw [hmod]

theorem natDigits_ne_nil (n : Nat) : natDigits n ≠ [] := by
  unfold natDigits
  by_cases h10 : n < 10 <;> simp [natDigitsF, h10]

theorem parseNatChars_natDigits (n : Nat) : parseNatChars (natDigits n) = some n := by
  unfold parseNatChars
  rw [if_neg (natDigits_ne_nil n)]
  have := natDigitsF_parse (n + 1) n 0 (by omega)
  rw [natDigits, this]
  simp

theorem findValue_kv_hit (k : String) (v key : List Char) (ls : List (List Char))
    (hk : ':' ∉ k.data) (hkey : k.data = key) :
    findValue key (kvL k v :: ls) = some v := by
  have hs : splitKV (kvL k v) = some (k.data, v) := splitKV_key k.data v hk
  simp only [findValue, hs]
  rw [if_pos hkey]

theorem findValue_kv_skip (k : String) (v key : List Char) (ls : List (List Char))
    (hk : ':' ∉ k.data) (hkey : k.data ≠ key) :
    findValue key (kvL k v :: ls) = findValue key ls := by
  have hs : splitKV (kvL k v) = some (k.data, v) := splitKV_key k.data v hk
  simp only [findValue, hs]
  rw [if_neg hkey]

theorem findValue_none_skip (l key : List Char) (ls : List (List Char))
    (h : splitKV l = none) :
    findValue key (l :: ls) = findValue key ls := by
  simp only [findValue, h]

theorem findValue_keypair_skip (l k' v' key : List Char) (ls : List (List Char))
    (h : splitKV l = some (k', v')) (hne : k' ≠ key) :
    findValue key (l :: ls) = findValue key ls := by
  simp only [findValue, h]
  rw [if_neg hne]

theorem findValue_append_skip (A : List (List Char)) (key : List Char)
    (ls : List (List Char))
    (h : ∀ l ∈ A, splitKV l = none ∨ ∃ k v, splitKV l = some (k, v) ∧ k ≠ key) :
    findValue key (A ++ ls) = findValue key ls := by
  induction A with
  | nil => rfl
  | cons l A ih =>
    rw [List.cons_append]
    rcases h l (by simp) with hn | ⟨k, v, hs, hne⟩
    · rw [findValue_none_skip _ _ _ hn]
      exact ih fun x hx => h x (by simp [hx])
    · rw [findValue_keypair_skip _ _ _ _ _ hs hne]
      exact ih fun x hx => h x (by simp [hx])

theorem afterLine_cons_hit (hdr : List Char) (ls : List (List Char)) :
    afterLine hdr (hdr :: ls) = some ls := by
  simp [afterLine]

theorem afterLine_append_skip (A : List (List Char)) (hdr : List Char)
    (ls : List (List Char)) (h : ∀ l ∈ A, l ≠ hdr) :
    afterLine hdr (A ++ ls) = afterLine hdr ls := by
  induction A with
  | nil => rfl
  | cons l A ih =>
    rw [List.cons_append]
    simp only [afterLine]
    rw [if_neg (h l (by simp))]
    exact ih fun x hx => h x (by simp [hx])

theorem afterLine_none (A : List (List Char)) (hdr : List Char)
    (h : ∀ l ∈ A, l ≠ hdr) : afterLine hdr A = none := by
  have := afterLine_append_skip A hdr [] h
  rw [List.append_nil] at this
  exact this

theorem splitKV_tagLine (t : String) (h : plainOk t = true) :
    splitKV (tagLine t) = none := by
  have h3 : splitKV t.data = none :=
    splitKV_none_of_noCS _ (plainOk_props t h).2.1
  show splitKV ("  - ".data ++ t.data) = none
  rw [splitKV_prepend "  - ".data t.data (by decide), h3]
  rfl

theorem splitKV_relIdLine (r : ChunkRelation) :
    splitKV (relIdLine r) = some ("  - id".data, r.id.data) :=
  splitKV_key "  - id".data r.id.data (by decide)

theorem splitKV_relReasonLine (r : ChunkRelation) :
    splitKV (relReasonLine r) = some ("    reason".data, r.reason.data) :=
  splitKV_key "    reason".data r.reason.data (by decide)

theorem hasPair_relIdLine (r : ChunkRelation) :
    hasPair ':' ' ' (relIdLine r) = true :=
  hasPair_sep "  - id".data r.id.data

theorem hasPair_relReasonLine (r : ChunkRelation) :
    hasPair ':' ' ' (relReasonLine r) = true :=
  hasPair_sep "    reason".data r.reason.data

theorem findValue_tagsBlock (c : Chunk) (key : List Char) (ls : List (List Char))
    (ht : ∀ t ∈ c.surface_tags, plainOk t = true)
    (hne : "surface_tags".data ≠ key) :
    findValue key (tagsBlock c ++ ls) = findValue key ls := by
  unfold tagsBlock
  by_cases he : c.surface_tags = []
  · rw [if_pos he, List.singleton_append]
    exact findValue_kv_skip _ _ _ _ (by decide) hne
  · rw [if_neg he, List.cons_append]
    rw [findValue_none_skip _ _ _ (by decide)]
    apply findValue_append_skip
    intro l hl
    obtain ⟨t, htm, rfl⟩ := List.mem_map.mp hl
    exact Or.inl (splitKV_tagLine t (ht t htm))

theorem findValue_relBlock (c : Chunk) (key : List Char) (ls : List (List Char))
    (h1 : "  - id".data ≠ key) (h2 : "    reason".data ≠ key) :
    findValue key (relBlock c ++ ls) = findValue key ls := by
  unfold relBlock
  by_cases he : c.related = []
  · rw [if_pos he, List.nil_append]
  · rw [if_neg he, List.cons_append]
    rw [findValue_none_skip _ _ _ (by decide)]
    apply findValue_append_skip
    intro l hl
    obtain ⟨r, hrm, hl2⟩ := List.mem_flatMap.mp hl
    rcases List.mem_cons.mp hl2 with rfl | hl3
    · exact Or.inr ⟨_, _, splitKV_relIdLine r, h1⟩
    · rcases List.mem_singleton.mp hl3 with rfl
      exact Or.inr ⟨_, _, splitKV_relReasonLine r, h2⟩

theorem findValue_expBlock (c : Chunk) (key : List Char) (ls : List (List Char))
    (hne : "expires".data ≠ key) :
    findValue key (expBlock c ++ ls) = findValue key ls := by
  unfold expBlock
  cases he : c.expires with
  | none =>
    show findValue key ([] ++ ls) = findValue key ls
    rw [List.nil_append]
  | some e =>
    by_cases hee : e = ""
    · show findValue key ((if e = "" then [] else [kvL "expires" e.data]) ++ ls) = _
      rw [if_pos hee, List.nil_append]
    · show findValue key ((if e = "" then [] else [kvL "expires" e.data]) ++ ls) = _
      rw [if_neg hee, List.singleton_append]
      exact findValue_kv_skip _ _ _ _ (by decide) hne

theorem findValue_cnBlock (c : Chunk) (key : List Char) (ls : List (List Char))
    (hne : "context_notes".data ≠ key) :
    findValue key (cnBlock c ++ ls) = findValue key ls := by
  unfold cnBlock
  cases he : c.context_notes with
  | none =>
    show findValue key ([] ++ ls) = findValue key ls
    rw [List.nil_append]
  | some n =>
    by_cases hnn : n = ""
    · show findValue key ((if n = "" then [] else [kvL "context_notes" n.data]) ++ ls) = _
      rw [if_pos hnn, List.nil_append]
    · show findValue key ((if n = "" then [] else [kvL "context_notes" n.data]) ++ ls) = _
      rw [if_neg hnn, List.singleton_append]
      exact findValue_kv_skip _ _ _ _ (by decide) hne

theorem findValue_header5 (c : Chunk) (key : List Char)
    (h1 : "id".data ≠ key) (h2 : "summary".data ≠ key) (h3 : "type".data ≠ key)
    (h4 : "epistemic".data ≠ key) (h5 : "status".data ≠ key) :
    findValue key (headerLines c) =
      findValue key (tagsBlock c ++
        (kvL "created" c.created.data :: kvL "updated" c.updated.data ::
         kvL "accessed" c.accessed.data ::
         kvL "retrieved_count" (natDigits c.retrieved_count) ::
         kvL "relevant_count" (natDigits c.relevant_count) ::
         kvL "last_relevant_date" ((c.last_relevant_date.map String.data).getD "null".data) ::
         (relBlock c ++ (expBlock c ++ cnBlock c)))) := by
  unfold headerLines
  simp only [List.append_assoc, List.cons_append, List.nil_append]
  rw [findValue_kv_skip _ _ _ _ (by decide) h1,
      findValue_kv_skip _ _ _ _ (by decide) h2,
      findValue_kv_skip _ _ _ _ (by decide) h3,
      findValue_kv_skip _ _ _ _ (by decide) h4,
      findValue_kv_skip _ _ _ _ (by decide) h5]

theorem findValue_header11 (c : Chunk) (key : List Char)
    (ht : ∀ t ∈ c.surface_tags, plainOk t = true)
    (h1 : "id".data ≠ key) (h2 : "summary".data ≠ key) (h3 : "type".data ≠ key)
    (h4 : "epistemic".data ≠ key) (h5 : "status".data ≠ key)
    (h6 : "surface_tags".data ≠ key)
    (h7 : "created".data ≠ key) (h8 : "updated".data ≠ key)
    (h9 : "accessed".data ≠ key) (h10 : "retrieved_count".data ≠ key)
    (h11 : "relevant_count".data ≠ key) (h12 : "last_relevant_date".data ≠ key) :
    findValue key (headerLines c) =
      findValue key (relBlock c ++ (expBlock c ++ cnBlock c)) := by
  rw [findValue_header5 c key h1 h2 h3 h4 h5,
      findValue_tagsBlock c key _ ht h6,
      findValue_kv_skip _ _ _ _ (by decide) h7,
      findValue_kv_skip _ _ _ _ (by decide) h8,
      findValue_kv_skip _ _ _ _ (by decide) h9,
      findValue_kv_skip _ _ _ _ (by decide) h10,
      findValue_kv_skip _ _ _ _ (by decide) h11,
      findValue_kv_skip _ _ _ _ (by decide) h12]

theorem fv_id (c : Chunk) : findValue "id".data (headerLines c) = some c.id.data := by
  unfold headerLines
  simp only [List.append_assoc, List.cons_append, List.nil_append]
  exact findValue_kv_hit "id" _ _ _ (by decide) rfl

theorem fv_summary (c : Chunk) :
    findValue "summary".data (headerLines c) = some c.summary.data := by
  unfold headerLines
  simp only [List.append_assoc, List.cons_append, List.nil_append]
  rw [findValue_kv_skip _ _ _ _ (by decide) (by decide)]
  exact findValue_kv_hit "summary" _ _ _ (by decide) rfl

theorem fv_type (c : Chunk) :
    findValue "type".data (headerLines c) = some c.type.data := by
  unfold headerLines
  simp only [List.append_assoc, List.cons_append, List.nil_append]
  rw [findValue_kv_skip _ _ _ _ (by decide) (by decide),
      findValue_kv_skip _ _ _ _ (by decide) (by decide)]
  exact findValue_kv_hit "type" _ _ _ (by decide) rfl

theorem fv_epistemic (c : Chunk) :
    findValue "epistemic".data (headerLines c) = some c.epistemic.data := by
  unfold headerLines
  simp only [List.append_assoc, List.cons_append, List.nil_append]
  rw [findValue_kv_skip _ _ _ _ (by decide) (by decide),
      findValue_kv_skip _ _ _ _ (by decide) (by decide),
      findValue_kv_skip _ _ _ _ (by decide) (by decide)]
  exact findValue_kv_hit "epistemic" _ _ _ (by decide) rfl

theorem fv_status (c : Chunk) :
    findValue "status".data (headerLines c) = some c.status.data := by
  unfold headerLines
  simp only [List.append_assoc, List.cons_append, List.nil_append]
  rw [findValue_kv_skip _ _ _ _ (by decide) (by decide),
      findValue_kv_skip _ _ _ _ (by decide) (by decide),
      findValue_kv_skip _ _ _ _ (by decide) (by decide),
      findValue_kv_skip _ _ _ _ (by decide) (by decide)]
  exact findValue_kv_hit "status" _ _ _ (by decide) rfl

theorem fv_created (c : Chunk) (ht : ∀ t ∈ c.surface_tags, plainOk t = true) :
    findValue "created".data (headerLines c) = some c.created.data := by
  rw [findValue_header5 c _ (by decide) (by decide) (by decide) (by decide) (by decide),
      findValue_tagsBlock c _ _ ht (by decide)]
  exact findValue_kv_hit "created" _ _ _ (by decide) rfl

theorem fv_updated (c : Chunk) (ht : ∀ t ∈ c.surface_tags, plainOk t = true) :
    findValue "updated".data (headerLines c) = some c.updated.data := by
  rw [findValue_header5 c _ (by decide) (by decide) (by decide) (by decide) (by decide),
      findValue_tagsBlock c _ _ ht (by decide),
      findValue_kv_skip _ _ _ _ (by decide) (by decide)]
  exact findValue_kv_hit "updated" _ _ _ (by decide) rfl

theorem fv_accessed (c : Chunk) (ht : ∀ t ∈ c.surface_tags, plainOk t = true) :
    findValue "accessed".data (headerLines c) = some c.accessed.data := by
  rw [findValue_header5 c _ (by decide) (by decide) (by decide) (by decide) (by decide),
      findValue_tagsBlock c _ _ ht (by decide),
      findValue_kv_skip _ _ _ _ (by decide) (by decide),
      findValue_kv_skip _ _ _ _ (by decide) (by decide)]
  exact findValue_kv_hit "accessed" _ _ _ (by decide) rfl

theorem fv_retrieved (c : Chunk) (ht : ∀ t ∈ c.surface_tags, plainOk t = true) :
    findValue "retrieved_count".data (headerLines c)
      = some (natDigits c.retrieved_count) := by
  rw [findValue_header5 c _ (by decide) (by decide) (by decide) (by decide) (by decide),
      findValue_tagsBlock c _ _ ht (by decide),
      findValue_kv_skip _ _ _ _ (by decide) (by decide),
      findValue_kv_skip _ _ _ _ (by decide) (by decide),
      findValue_kv_skip _ _ _ _ (by decide) (by decide)]
  exact findValue_kv_hit "retrieved_count" _ _ _ (by decide) rfl

theorem fv_relevant (c : Chunk) (ht : ∀ t ∈ c.surface_tags, plainOk t = true) :
    findValue "relevant_count".data (headerLines c)
      = some (natDigits c.relevant_count) := by
  rw [findValue_header5 c _ (by decide) (by decide) (by decide) (by decide) (by decide),
      findValue_tagsBlock c _ _ ht (by decide),
      findValue_kv_skip _ _ _ _ (by decide) (by decide),
      findValue_kv_skip _ _ _ _ (by decide) (by decide),
      findValue_kv_skip _ _ _ _ (by decide) (by decide),
      findValue_kv_skip _ _ _ _ (by decide) (by decide)]
  exact findValue_kv_hit "relevant_count" _ _ _ (by decide) rfl

theorem fv_lrd (c : Chunk) (ht : ∀ t ∈ c.surface_tags, plainOk t = true) :
    findValue "last_relevant_date".data (headerLines c)
      = some ((c.last_relevant_date.map String.data).getD "null".data) := by
  rw [findValue_header5 c _ (by decide) (by decide) (by decide) (by decide) (by decide),
      findValue_tagsBlock c _ _ ht (by decide),
      findValue_kv_skip _ _ _ _ (by decide) (by decide),
      findValue_kv_skip _ _ _ _ (by decide) (by decide),
      findValue_kv_skip _ _ _ _ (by decide) (by decide),
      findValue_kv_skip _ _ _ _ (by decide) (by decide),
      findValue_kv_skip _ _ _ _ (by decide) (by decide)]
  exact findValue_kv_hit "last_relevant_date" _ _ _ (by decide) rfl

theorem fv_expires (c : Chunk) (ht : ∀ t ∈ c.surface_tags, plainOk t = true) :
    findValue "expires".data (headerLines c) =
      match c.expires with
      | some e => if e = "" then none else some e.data
      | none => none := by
  rw [findValue_header11 c _ ht (by decide) (by decide) (by decide) (by decide)
        (by decide) (by decide) (by decide) (by decide) (by decide) (by decide)
        (by decide) (by decide),
      findValue_relBlock c _ _ (by decide) (by decide)]
  unfold expBlock
  cases he : c.expires with
  | none =>
    show findValue "expires".data ([] ++ cnBlock c) = none
    rw [List.nil_append, ← List.append_nil (cnBlock c),
        findValue_cnBlock c _ _ (by decide)]
    rfl
  | some e =>
    by_cases hee : e = ""
    · show findValue "expires".data
          ((if e = "" then [] else [kvL "expires" e.data]) ++ cnBlock c)
          = if e = "" then none else some e.data
      rw [if_pos hee, if_pos hee, List.nil_append, ← List.append_nil (cnBlock c),
          findValue_cnBlock c _ _ (by decide)]
      rfl
    · show findValue "expires".data
          ((if e = "" then [] else [kvL "expires" e.data]) ++ cnBlock c)
          = if e = "" then none else some e.data
      rw [if_neg hee, if_neg hee, List.singleton_append]
      exact findValue_kv_hit "expires" _ _ _ (by decide) rfl

theorem fv_context_notes (c : Chunk) (ht : ∀ t ∈ c.surface_tags, plainOk t = true) :
    findValue "context_notes".data (headerLines c) =
      match c.context_notes with
      | some n => if n = "" then none else some n.data
      | none => none := by
  rw [findValue_header11 c _ ht (by decide) (by decide) (by decide) (by decide)
        (by decide) (by decide) (by decide) (by decide) (by decide) (by decide)
        (by decide) (by decide),
      findValue_relBlock c _ _ (by decide) (by decide),
      findValue_expBlock c _ _ (by decide)]
  unfold cnBlock
  cases hn : c.context_notes with
  | none => rfl
  | some n =>
    by_cases hnn : n = ""
    · show findValue "context_notes".data (if n = "" then [] else [kvL "context_notes" n.data])
          = if n = "" then none else some n.data
      rw [if_pos hnn, if_pos hnn]
      rfl
    · show findValue "context_notes".data (if n = "" then [] else [kvL "context_notes" n.data])
          = if n = "" then none else some n.data
      rw [if_neg hnn, if_neg hnn, ← List.append_nil [kvL "context_notes" n.data],
          List.singleton_append]
      exact findValue_kv_hit "context_notes" _ _ _ (by decide) rfl

theorem hasPair_kvL (k : String) (v : List Char) :
    hasPair ':' ' ' (kvL k v) = true :=
  hasPair_sep k.data v

theorem afterLine_cons_skip (l hdr : List Char) (ls : List (List Char))
    (h : l ≠ hdr) : afterLine hdr (l :: ls) = afterLine hdr ls := by
  simp only [afterLine]
  rw [if_neg h]

theorem tagLine_ne_lit (t : String) (c0 : Char) (l : List Char) (h : c0 ≠ ' ') :
    tagLine t ≠ c0 :: l := by
  intro he
  injection he with h1 _
  exact h h1.symm

theorem mem_tagsBlock (c : Chunk) (l : List Char) (hl : l ∈ tagsBlock c) :
    (l = kvL "surface_tags" "[]".data ∧ c.surface_tags = [])
    ∨ (l = "surface_tags:".data ∧ c.surface_tags ≠ [])
    ∨ ∃ t ∈ c.surface_tags, l = tagLine t := by
  unfold tagsBlock at hl
  by_cases he : c.surface_tags = []
  · rw [if_pos he] at hl
    rcases List.mem_singleton.mp hl with rfl
    exact Or.inl ⟨rfl, he⟩
  · rw [if_neg he] at hl
    rcases List.mem_cons.mp hl with rfl | hl2
    · exact Or.inr (Or.inl ⟨rfl, he⟩)
    · obtain ⟨t, htm, rfl⟩ := List.mem_map.mp hl2
      exact Or.inr (Or.inr ⟨t, htm, rfl⟩)

theorem mem_relBlock (c : Chunk) (l : List Char) (hl : l ∈ relBlock c) :
    (l = "related:".data ∧ c.related ≠ [])
    ∨ ∃ r ∈ c.related, l = relIdLine r ∨ l = relReasonLine r := by
  unfold relBlock at hl
  by_cases he : c.related = []
  · rw [if_pos he] at hl
    exact absurd hl (List.not_mem_nil l)
  · rw [if_neg he] at hl
    rcases List.mem_cons.mp hl with rfl | hl2
    · exact Or.inl ⟨rfl, he⟩
    · obtain ⟨r, hrm, hl3⟩ := List.mem_flatMap.mp hl2
      rcases List.mem_cons.mp hl3 with rfl | hl4
      · exact Or.inr ⟨r, hrm, Or.inl rfl⟩
      · rcases List.mem_singleton.mp hl4 with rfl
        exact Or.inr ⟨r, hrm, Or.inr rfl⟩

theorem mem_expBlock (c : Chunk) (l : List Char) (hl : l ∈ expBlock c) :
    ∃ e, c.expires = some e ∧ e ≠ "" ∧ l = kvL "expires" e.data := by
  unfold expBlock at hl
  cases hx : c.expires with
  | none =>
    rw [hx] at hl
    exact absurd hl (List.not_mem_nil l)
  | some e =>
    rw [hx] at hl
    have hl' : l ∈ (if e = "" then [] else [kvL "expires" e.data]) := hl
    by_cases hee : e = ""
    · rw [if_pos hee] at hl'
      exact absurd hl' (List.not_mem_nil l)
    · rw [if_neg hee] at hl'
      rcases List.mem_singleton.mp hl' with rfl
      exact ⟨e, rfl, hee, rfl⟩

theorem mem_cnBlock (c : Chunk) (l : List Char) (hl : l ∈ cnBlock c) :
    ∃ n, c.context_notes = some n ∧ n ≠ "" ∧ l = kvL "context_notes" n.data := by
  unfold cnBlock at hl
  cases hx : c.context_notes with
  | none =>
    rw [hx] at hl
    exact absurd hl (List.not_mem_nil l)
  | some n =>
    rw [hx] at hl
    have hl' : l ∈ (if n = "" then [] else [kvL "context_notes" n.data]) := hl
    by_cases hnn : n = ""
    · rw [if_pos hnn] at hl'
      exact absurd hl' (List.not_mem_nil l)
    · rw [if_neg hnn] at hl'
      rcases List.mem_singleton.mp hl' with rfl
      exact ⟨n, rfl, hnn, rfl⟩

theorem mem_headerLines (c : Chunk) (l : List Char) (hl : l ∈ headerLines c) :
    (∃ k v, l = kvL k v)
    ∨ (l = "surface_tags:".data ∧ c.surface_tags ≠ [])
    ∨ (l = "related:".data ∧ c.related ≠ [])
    ∨ (∃ t ∈ c.surface_tags, l = tagLine t)
    ∨ (∃ r ∈ c.related, l = relIdLine r ∨ l = relReasonLine r) := by
  unfold headerLines at hl
  rcases List.mem_append.mp hl with h1 | hC
  · rcases List.mem_append.mp h1 with h2 | hE
    · rcases List.mem_append.mp h2 with h3 | hR
      · rcases List.mem_append.mp h3 with h4 | hL6
        · rcases List.mem_append.mp h4 with h5 | hT
          · simp only [List.mem_cons, List.not_mem_nil, or_false] at h5
            rcases h5 with rfl | rfl | rfl | rfl | rfl <;> exact Or.inl ⟨_, _, rfl⟩
          · rcases mem_tagsBlock c l hT with ⟨rfl, _⟩ | ⟨rfl, hne⟩ | ⟨t, htm, rfl⟩
            · exact Or.inl ⟨_, _, rfl⟩
            · exact Or.inr (Or.inl ⟨rfl, hne⟩)
            · exact Or.inr (Or.inr (Or.inr (Or.inl ⟨t, htm, rfl⟩)))
        · simp only [List.mem_cons, List.not_mem_nil, or_false] at hL6
          rcases hL6 with rfl | rfl | rfl | rfl | rfl | rfl <;> exact Or.inl ⟨_, _, rfl⟩
      · rcases mem_relBlock c l hR with ⟨rfl, hne⟩ | ⟨r, hrm, h⟩
        · exact Or.inr (Or.inr (Or.inl ⟨rfl, hne⟩))
        · exact Or.inr (Or.inr (Or.inr (Or.inr ⟨r, hrm, h⟩)))
    · obtain ⟨e, _, _, rfl⟩ := mem_expBlock c l hE
      exact Or.inl ⟨_, _, rfl⟩
  · obtain ⟨n, _, _, rfl⟩ := mem_cnBlock c l hC
    exact Or.inl ⟨_, _, rfl⟩

theorem headerLines_ne_delim (c : Chunk) :
    ∀ l ∈ headerLines c, l ≠ "---".data := by
  intro l hl
  rcases mem_headerLines c l hl with ⟨k, v, rfl⟩ | ⟨rfl, _⟩ | ⟨rfl, _⟩
    | ⟨t, _, rfl⟩ | ⟨r, _, rfl | rfl⟩
  · exact kvL_ne_noCS k v _ (by decide)
  · decide
  · decide
  · exact tagLine_ne_lit t '-' _ (by decide)
  · exact ne_of_hasPair ':' ' ' _ _ (hasPair_relIdLine r) (by decide)
  · exact ne_of_hasPair ':' ' ' _ _ (hasPair_relReasonLine r) (by decide)

theorem kvL_noNL (k : String) (v : List Char) (hk : '\n' ∉ k.data) (hv : '\n' ∉ v) :
    '\n' ∉ kvL k v := by
  intro hm
  unfold kvL at hm
  rcases List.mem_append.mp hm with h | h
  · exact hk h
  · rcases List.mem_cons.mp h with h1 | h1
    · exact absurd h1 (by decide)
    · rcases List.mem_cons.mp h1 with h2 | h2
      · exact absurd h2 (by decide)
      · exact hv h2

theorem tagLine_noNL (t : String) (h : '\n' ∉ t.data) : '\n' ∉ tagLine t := by
  intro hm
  unfold tagLine at hm
  rcases List.mem_cons.mp hm with h1 | h1
  · exact absurd h1 (by decide)
  rcases List.mem_cons.mp h1 with h2 | h2
  · exact absurd h2 (by decide)
  rcases List.mem_cons.mp h2 with h3 | h3
  · exact absurd h3 (by decide)
  rcases List.mem_cons.mp h3 with h4 | h4
  · exact absurd h4 (by decide)
  · exact h h4

theorem relIdLine_noNL (r : ChunkRelation) (h : '\n' ∉ r.id.data) :
    '\n' ∉ relIdLine r := by
  intro hm
  unfold relIdLine at hm
  rcases List.mem_append.mp hm with h1 | h1
  · exact absurd h1 (by decide)
  · exact h h1

theorem relReasonLine_noNL (r : ChunkRelation) (h : '\n' ∉ r.reason.data) :
    '\n' ∉ relReasonLine r := by
  intro hm
  unfold relReasonLine at hm
  rcases List.mem_append.mp hm with h1 | h1
  · exact absurd h1 (by decide)
  · exact h h1

theorem headerLines_noNL (c : Chunk) (hwf : WellFormed c) :
    ∀ l ∈ headerLines c, '\n' ∉ l := by
  obtain ⟨hid, hsum, hty, hep, hst, htags, hrel, hcr, hup, hac, hlrd, hexpP, hcnP⟩ := hwf
  intro l hl
  unfold headerLines at hl
  rcases List.mem_append.mp hl with h1 | hC
  · rcases List.mem_append.mp h1 with h2 | hE
    · rcases List.mem_append.mp h2 with h3 | hR
      · rcases List.mem_append.mp h3 with h4 | hL6
        · rcases List.mem_append.mp h4 with h5 | hT
          · simp only [List.mem_cons, List.not_mem_nil, or_false] at h5
            rcases h5 with rfl | rfl | rfl | rfl | rfl
            · exact kvL_noNL _ _ (by decide) (plainOk_props _ hid).1
            · exact kvL_noNL _ _ (by decide) (plainOk_props _ hsum).1
            · exact kvL_noNL _ _ (by decide) (plainOk_props _ hty).1
            · exact kvL_noNL _ _ (by decide) (plainOk_props _ hep).1
            · exact kvL_noNL _ _ (by decide) (plainOk_props _ hst).1
          · rcases mem_tagsBlock c l hT with ⟨rfl, _⟩ | ⟨rfl, _⟩ | ⟨t, htm, rfl⟩
            · exact kvL_noNL _ _ (by decide) (by decide)
            · decide
            · exact tagLine_noNL t (plainOk_props t (htags t htm)).1
        · simp only [List.mem_cons, List.not_mem_nil, or_false] at hL6
          rcases hL6 with rfl | rfl | rfl | rfl | rfl | rfl
          · exact kvL_noNL _ _ (by decide) (plainOk_props _ hcr).1
          · exact kvL_noNL _ _ (by decide) (plainOk_props _ hup).1
          · exact kvL_noNL _ _ (by decide) (plainOk_props _ hac).1
          · exact kvL_noNL _ _ (by decide) (natDigits_noNL _)
          · exact kvL_noNL _ _ (by decide) (natDigits_noNL _)
          · refine kvL_noNL _ _ (by decide) ?_
            cases hx : c.last_relevant_date with
            | none => decide
            | some v =>
              show '\n' ∉ v.data
              exact (plainOk_props v (hlrd v hx)).1
      · rcases mem_relBlock c l hR with ⟨rfl, _⟩ | ⟨r, hrm, rfl | rfl⟩
        · decide
        · exact relIdLine_noNL r (plainOk_props _ (hrel r hrm).1).1
        · exact relReasonLine_noNL r (plainOk_props _ (hrel r hrm).2).1
    · obtain ⟨e, hx, hee, rfl⟩ := mem_expBlock c l hE
      rcases hexpP e hx with rfl | hp
      · exact absurd rfl hee
      · exact kvL_noNL _ _ (by decide) (plainOk_props _ hp).1
  · obtain ⟨n, hx, hnn, rfl⟩ := mem_cnBlock c l hC
    rcases hcnP n hx with rfl | hp
    · exact absurd rfl hnn
    · exact kvL_noNL _ _ (by decide) (plainOk_props _ hp).1

theorem tagsOf_eq (lines ls : List (List Char))
    (h : afterLine "surface_tags:".data lines = some ls) :
    tagsOf lines = (takeItems ls).map String.mk := by
  unfold tagsOf
  rw [h]

theorem tagsOf_none (lines : List (List Char))
    (h : afterLine "surface_tags:".data lines = none) :
    tagsOf lines = [] := by
  unfold tagsOf
  rw [h]

theorem relatedOf_eq (lines ls : List (List Char))
    (h : afterLine "related:".data lines = some ls) :
    relatedOf lines = takeRelated ls := by
  unfold relatedOf
  rw [h]

theorem relatedOf_none (lines : List (List Char))
    (h : afterLine "related:".data lines = none) :
    relatedOf lines = [] := by
  unfold relatedOf
  rw [h]

theorem takeItems_cons_stop (l : List Char) (ls : List (List Char))
    (h : l.take 4 ≠ "  - ".data) : takeItems (l :: ls) = [] := by
  simp only [takeItems]
  rw [if_neg h]

theorem takeItems_tags (tags : List String) (rest : List (List Char))
    (h : takeItems rest = []) :
    takeItems (tags.map tagLine ++ rest) = tags.map String.data := by
  induction tags with
  | nil => simpa using h
  | cons t ts ih =>
    rw [List.map_cons, List.cons_append]
    simp only [takeItems]
    rw [if_pos (show (tagLine t).take 4 = "  - ".data from rfl), ih]
    rfl

theorem takeRelated_pairs (rels : List ChunkRelation) (rest : List (List Char))
    (h : takeRelated rest = []) :
    takeRelated (rels.flatMap (fun r => [relIdLine r, relReasonLine r]) ++ rest)
      = rels := by
  induction rels with
  | nil => simpa using h
  | cons r rs ih =>
    simp only [List.flatMap_cons, List.cons_append, List.append_assoc, List.nil_append]
    simp only [takeRelated]
    rw [if_pos ⟨show (relIdLine r).take 8 = "  - id: ".data from rfl,
                show (relReasonLine r).take 12 = "    reason: ".data from rfl⟩, ih]
    rfl

theorem expBlock_cases (c : Chunk) :
    expBlock c = [] ∨ ∃ e : String, expBlock c = [kvL "expires" e.data] := by
  unfold expBlock
  cases hx : c.expires with
  | none => exact Or.inl rfl
  | some e =>
    by_cases hee : e = ""
    · refine Or.inl ?_
      show (if e = "" then [] else [kvL "expires" e.data]) = []
      rw [if_pos hee]
    · refine Or.inr ⟨e, ?_⟩
      show (if e = "" then [] else [kvL "expires" e.data]) = [kvL "expires" e.data]
      rw [if_neg hee]

theorem cnBlock_cases (c : Chunk) :
    cnBlock c = [] ∨ ∃ n : String, cnBlock c = [kvL "context_notes" n.data] := by
  unfold cnBlock
  cases hx : c.context_notes with
  | none => exact Or.inl rfl
  | some n =>
    by_cases hnn : n = ""
    · refine Or.inl ?_
      show (if n = "" then [] else [kvL "context_notes" n.data]) = []
      rw [if_pos hnn]
    · refine Or.inr ⟨n, ?_⟩
      show (if n = "" then [] else [kvL "context_notes" n.data])
          = [kvL "context_notes" n.data]
      rw [if_neg hnn]

theorem takeRelated_expcn (c : Chunk) :
    takeRelated (expBlock c ++ cnBlock c) = [] := by
  rcases expBlock_cases c with hE | ⟨e, hE⟩ <;> rcases cnBlock_cases c with hC | ⟨n, hC⟩ <;>
    rw [hE, hC]
  · rfl
  · rfl
  · rfl
  · rw [List.singleton_append]
    simp only [takeRelated]
    rw [if_neg]
    rintro ⟨h1, _⟩
    rw [show (kvL "expires" e.data).take 8 = "expires:".data from rfl] at h1
    exact absurd h1 (by decide)

theorem takeItems_l6 (c : Chunk) (ls : List (List Char)) :
    takeItems (kvL "created" c.created.data :: ls) = [] := by
  apply takeItems_cons_stop
  rw [show (kvL "created" c.created.data).take 4 = "crea".data from rfl]
  decide

theorem tagsOf_headerLines (c : Chunk) : tagsOf (headerLines c) = c.surface_tags := by
  by_cases he : c.surface_tags = []
  · have hnone : afterLine "surface_tags:".data (headerLines c) = none := by
      apply afterLine_none
      intro l hl
      rcases mem_headerLines c l hl with ⟨k, v, rfl⟩ | ⟨rfl, hne⟩ | ⟨rfl, _⟩
        | ⟨t, htm, rfl⟩ | ⟨r, _, rfl | rfl⟩
      · exact kvL_ne_noCS k v _ (by decide)
      · exact absurd he hne
      · decide
      · exact absurd htm (by rw [he]; exact List.not_mem_nil t)
      · exact ne_of_hasPair ':' ' ' _ _ (hasPair_relIdLine r) (by decide)
      · exact ne_of_hasPair ':' ' ' _ _ (hasPair_relReasonLine r) (by decide)
    rw [tagsOf_none _ hnone, he]
  · have hafter : afterLine "surface_tags:".data (headerLines c)
        = some (c.surface_tags.map tagLine ++
            (kvL "created" c.created.data :: kvL "updated" c.updated.data ::
             kvL "accessed" c.accessed.data ::
             kvL "retrieved_count" (natDigits c.retrieved_count) ::
             kvL "relevant_count" (natDigits c.relevant_count) ::
             kvL "last_relevant_date"
               ((c.last_relevant_date.map String.data).getD "null".data) ::
             (relBlock c ++ (expBlock c ++ cnBlock c)))) := by
      unfold headerLines
      simp only [List.append_assoc, List.cons_append, List.nil_append]
      rw [afterLine_cons_skip _ _ _ (kvL_ne_noCS _ _ _ (by decide)),
          afterLine_cons_skip _ _ _ (kvL_ne_noCS _ _ _ (by decide)),
          afterLine_cons_skip _ _ _ (kvL_ne_noCS _ _ _ (by decide)),
          afterLine_cons_skip _ _ _ (kvL_ne_noCS _ _ _ (by decide)),
          afterLine_cons_skip _ _ _ (kvL_ne_noCS _ _ _ (by decide))]
      unfold tagsBlock
      rw [if_neg he, List.cons_append]
      exact afterLine_cons_hit _ _
    rw [tagsOf_eq _ _ hafter, takeItems_tags _ _ (takeItems_l6 c _), List.map_map]
    have hcomp : (String.mk ∘ String.data) = id := funext fun s => mk_data s
    rw [hcomp, List.map_id]

theorem relatedOf_headerLines (c : Chunk) : relatedOf (headerLines c) = c.related := by
  by_cases he : c.related = []
  · have hnone : afterLine "related:".data (headerLines c) = none := by
      apply afterLine_none
      intro l hl
      rcases mem_headerLines c l hl with ⟨k, v, rfl⟩ | ⟨rfl, _⟩ | ⟨rfl, hne⟩
        | ⟨t, _, rfl⟩ | ⟨r, _, rfl | rfl⟩
      · exact kvL_ne_noCS k v _ (by decide)
      · decide
      · exact absurd he hne
      · exact tagLine_ne_lit t 'r' _ (by decide)
      · exact ne_of_hasPair ':' ' ' _ _ (hasPair_relIdLine r) (by decide)
      · exact ne_of_hasPair ':' ' ' _ _ (hasPair_relReasonLine r) (by decide)
    rw [relatedOf_none _ hnone, he]
  · have htb : ∀ l ∈ tagsBlock c, l ≠ "related:".data := by
      intro l hl
      rcases mem_tagsBlock c l hl with ⟨rfl, _⟩ | ⟨rfl, _⟩ | ⟨t, _, rfl⟩
      · exact kvL_ne_noCS _ _ _ (by decide)
      · decide
      · exact tagLine_ne_lit t 'r' _ (by decide)
    have hafter : afterLine "related:".data (headerLines c)
        = some (c.related.flatMap (fun r => [relIdLine r, relReasonLine r])
            ++ (expBlock c ++ cnBlock c)) := by
      unfold headerLines
      simp only [List.append_assoc, List.cons_append, List.nil_append]
      rw [afterLine_cons_skip _ _ _ (kvL_ne_noCS _ _ _ (by decide)),
          afterLine_cons_skip _ _ _ (kvL_ne_noCS _ _ _ (by decide)),
          afterLine_cons_skip _ _ _ (kvL_ne_noCS _ _ _ (by decide)),
          afterLine_cons_skip _ _ _ (kvL_ne_noCS _ _ _ (by decide)),
          afterLine_cons_skip _ _ _ (kvL_ne_noCS _ _ _ (by decide)),
          afterLine_append_skip _ _ _ htb,
          afterLine_cons_skip _ _ _ (kvL_ne_noCS _ _ _ (by decide)),
          afterLine_cons_skip _ _ _ (kvL_ne_noCS _ _ _ (by decide)),
          afterLine_cons_skip _ _ _ (kvL_ne_noCS _ _ _ (by decide)),
          afterLine_cons_skip _ _ _ (kvL_ne_noCS _ _ _ (by decide)),
          afterLine_cons_skip _ _ _ (kvL_ne_noCS _ _ _ (by decide)),
          afterLine_cons_skip _ _ _ (kvL_ne_noCS _ _ _ (by decide))]
      unfold relBlock
      rw [if_neg he, List.cons_append]
      exact afterLine_cons_hit _ _
    rw [relatedOf_eq _ _ hafter, takeRelated_pairs _ _ (takeRelated_expcn c)]

theorem idxOfDelim_append (A B : List (List Char))
    (h : ∀ l ∈ A, l ≠ "---".data) :
    idxOfDelim (A ++ "---".data :: B) = some A.length := by
  induction A with
  | nil => simp [idxOfDelim]
  | cons l A ih =>
    rw [List.cons_append]
    simp only [idxOfDelim]
    rw [if_neg (h l (by simp)), ih fun x hx => h x (by simp [hx])]
    rfl

/-- Claim C3 (amended): for every well-formed chunk whose content is stable
under ECMA-262 trimming and whose optional `expires` and `context_notes`
fields are not present-but-empty, parsing the serialized file yields the
chunk back exactly, for every filename.  (As literally stated the claim
fails: the parser trims the body, and empty-string optional fields are
dropped by the truthiness check in serializeChunk.)  `WellFormed` is the
declared model boundary for the external yaml dependency: header scalars
that the library renders as unquoted plain scalars, the domain on which
`headerLines` coincides with the library's output; quoted-scalar rendering
is outside the model. -/
theorem parse_serialize_roundtrip (c : Chunk) (f : String)
    (hwf : WellFormed c)
    (hct : trimChars c.content.data = c.content.data)
    (hexp : c.expires ≠ some "")
    (hcn : c.context_notes ≠ some "") :
    parseChunkFile (serializeChunk c) f = .ok c := by
  have hnlh := headerLines_noNL c hwf
  obtain ⟨hid, hsum, hty, hep, hst, htags, hrel, hcr, hup, hac, hlrd, hexpP, hcnP⟩ := hwf
  have hnl : ∀ q ∈ "---".data :: (headerLines c ++ ["---".data]), '\n' ∉ q := by
    intro q hq
    rcases List.mem_cons.mp hq with rfl | hq2
    · decide
    rcases List.mem_append.mp hq2 with hq3 | hq3
    · exact hnlh q hq3
    · rcases List.mem_singleton.mp hq3 with rfl
      decide
  have hsplit3 : splitNL (serializeChunk c).data
      = "---".data :: (headerLines c ++ ("---".data :: ([] :: splitNL c.content.data))) := by
    have h1 : splitNL (serializeChunk c).data
        = "---".data :: ((headerLines c ++ ["---".data])
            ++ splitNL ('\n' :: c.content.data)) :=
      splitNL_parts "---".data (headerLines c ++ ["---".data])
        ('\n' :: c.content.data) hnl
    rw [h1]
    have h2 : splitNL ('\n' :: c.content.data) = [] :: splitNL c.content.data := by
      simp [splitNL]
    rw [h2]
    simp [List.append_assoc]
  have hidx : idxOfDelim (headerLines c ++ ("---".data :: ([] :: splitNL c.content.data)))
      = some (headerLines c).length :=
    idxOfDelim_append _ _ (headerLines_ne_delim c)
  have htake : (headerLines c ++ ("---".data :: ([] :: splitNL c.content.data))).take
      (headerLines c).length = headerLines c := List.take_left _ _
  have hdrop : (headerLines c ++ ("---".data :: ([] :: splitNL c.content.data))).drop
      ((headerLines c).length + 1) = [] :: splitNL c.content.data := by
    have hdshape : headerLines c ++ ("---".data :: ([] :: splitNL c.content.data))
        = (headerLines c ++ ["---".data]) ++ ([] :: splitNL c.content.data) := by simp
    rw [hdshape]
    have hlen : (headerLines c).length + 1 = (headerLines c ++ ["---".data]).length := by
      simp
    rw [hlen, List.drop_left]
  have hbody : String.mk (trimChars (joinLines ([] :: splitNL c.content.data)))
      = c.content := by
    cases hsp : splitNL c.content.data with
    | nil => exact absurd hsp (splitNL_ne_nil _)
    | cons x xt =>
      show String.mk (trimChars ([] ++ '\n' :: joinLines (x :: xt))) = c.content
      rw [List.nil_append, trimChars_cons_nl, ← hsp, joinLines_splitNL, hct, mk_data]
  simp only [parseChunkFile, hsplit3, hidx, htake, hdrop]
  rw [fv_id c, fv_summary c, fv_type c, fv_epistemic c, fv_status c,
      fv_created c htags, fv_updated c htags, fv_accessed c htags,
      fv_retrieved c htags, fv_relevant c htags, fv_lrd c htags,
      fv_expires c htags, fv_context_notes c htags,
      tagsOf_headerLines c, relatedOf_headerLines c]
  simp only [Option.map_some', Option.getD_some, Option.some_bind,
             parseNatChars_natDigits, mk_data, hbody]
  refine congrArg Except.ok ?_
  obtain ⟨cid, ccont, csum, cty, cep, cst, ctags0, crel0, ccr0, cup0, cac0, crc0,
    crv0, clrd0, cexp0, ccn0⟩ := c
  simp only [Chunk.mk.injEq]
  refine ⟨trivial, trivial, trivial, trivial, trivial, trivial, trivial, trivial,
    trivial, trivial, trivial, trivial, trivial, ?_, ?_, ?_⟩
  · cases clrd0 with
    | none => rfl
    | some v =>
      have hv := hlrd v rfl
      show (if String.mk v.data = "null" then none else some (String.mk v.data)) = some v
      rw [mk_data, if_neg (plainOk_props v hv).2.2]
  · cases cexp0 with
    | none => rfl
    | some e =>
      have he : e ≠ "" := fun h => hexp (by rw [h])
      show Option.map String.mk (if e = "" then none else some e.data) = some e
      rw [if_neg he]
      show some (String.mk e.data) = some e
      rw [mk_data]
  · cases ccn0 with
    | none => rfl
    | some n =>
      have hn : n ≠ "" := fun h => hcn (by rw [h])
      show Option.map String.mk (if n = "" then none else some n.data) = some n
      rw [if_neg hn]
      show some (String.mk n.data) = some n
      rw [mk_data]

/-- Witness for C3 at a concrete fully-populated chunk: the hypotheses hold
and the round-trip reproduces it. -/
theorem parse_serialize_roundtrip_witness :
    WellFormed rtChunk ∧ trimChars rtChunk.content.data = rtChunk.content.data ∧
    rtChunk.expires ≠ some "" ∧ rtChunk.context_notes ≠ some "" ∧
    parseChunkFile (serializeChunk rtChunk) "t.md" = .ok rtChunk :=
  ⟨by decide, by decide, by decide, by decide,
   parse_serialize_roundtrip rtChunk "t.md" (by decide) (by decide) (by decide)
     (by decide)⟩

/-- Counterexample to C3 as stated: a well-formed chunk whose content ends in
a newline does not round-trip — the parser trims the body, so the parsed
chunk differs from the original in the content field itself, not merely in
header field ordering or header whitespace. -/
theorem roundtrip_counterexample :
    WellFormed { rtChunk with content := "hello\n" } ∧
    parseChunkFile (serializeChunk { rtChunk with content := "hello\n" }) "t.md"
      = .ok rtChunk ∧
    rtChunk.content ≠ "hello\n" :=
  ⟨by decide, by rfl, by decide⟩
